import Mathlib

/-!
HTTP server core (`http_server/main.go`): a shallow embedding.

The Go program is embedded as pure Lean functions over byte lists.

* A Go `string` or `[]byte` is a `List UInt8` (`Bytes`); a `nil` slice and an
  empty slice are both `[]`, as `len` cannot tell them apart.
* A Go `map[string]string` is an association list with distinct keys
  (`AList`).  The order of a `range` over a map is not fixed by the language,
  so `CreateResponse` takes the iteration order as an argument (`MapRange`).
* The `bufio.Reader` over the request buffer is the list of bytes not yet
  consumed.
* The standard-library functions the program calls (`strings.TrimSpace`,
  `strings.Split`, `strings.SplitN`, `strconv.Itoa`, `bufio.Reader.ReadString`,
  `regexp` on the two route patterns) are modelled from their documented
  behaviour; `compress/gzip` and the filesystem are parameters.
-/

namespace HttpServer

/-- A Go byte string. -/
abbrev Bytes := List UInt8

/-- The UTF-8 bytes of a string literal, as Go stores it. -/
def bytes (s : String) : Bytes := s.data.flatMap String.utf8EncodeChar

/-- Source: `const CLRF = "\r\n"`. -/
def CLRF : Bytes := [13, 10]

/-! ## `unicode/utf8` and `unicode.IsSpace` -/

/-- Go `utf8.RuneError`. -/
def RuneError : Nat := 0xFFFD

/-- Go `utf8.RuneSelf`: bytes below it are single-byte runes. -/
def RuneSelf : Nat := 0x80

/-- Go `utf8.DecodeRuneInString`: the first rune of `s` and its width in
bytes; an invalid or truncated encoding gives `(RuneError, 1)`, the empty
string `(RuneError, 0)`. -/
def DecodeRuneInString (s : Bytes) : Nat × Nat :=
  match s with
  | [] => (RuneError, 0)
  | b0 :: t =>
    let s0 := b0.toNat
    if s0 < 0x80 then (s0, 1)
    else if s0 < 0xC2 then (RuneError, 1)
    else if s0 < 0xE0 then
      -- two bytes, second in 0x80..0xBF
      match t with
      | b1 :: _ =>
        let s1 := b1.toNat
        if s1 < 0x80 ∨ 0xBF < s1 then (RuneError, 1)
        else ((s0 % 32) * 64 + s1 % 64, 2)
      | _ => (RuneError, 1)
    else if s0 < 0xF0 then
      -- three bytes; the range of the second depends on the first
      let lo := if s0 = 0xE0 then 0xA0 else 0x80
      let hi := if s0 = 0xED then 0x9F else 0xBF
      match t with
      | b1 :: b2 :: _ =>
        let s1 := b1.toNat
        let s2 := b2.toNat
        if s1 < lo ∨ hi < s1 then (RuneError, 1)
        else if s2 < 0x80 ∨ 0xBF < s2 then (RuneError, 1)
        else ((s0 % 16) * 4096 + (s1 % 64) * 64 + s2 % 64, 3)
      | _ => (RuneError, 1)
    else if s0 < 0xF5 then
      -- four bytes
      let lo := if s0 = 0xF0 then 0x90 else 0x80
      let hi := if s0 = 0xF4 then 0x8F else 0xBF
      match t with
      | b1 :: b2 :: b3 :: _ =>
        let s1 := b1.toNat
        let s2 := b2.toNat
        let s3 := b3.toNat
        if s1 < lo ∨ hi < s1 then (RuneError, 1)
        else if s2 < 0x80 ∨ 0xBF < s2 then (RuneError, 1)
        else if s3 < 0x80 ∨ 0xBF < s3 then (RuneError, 1)
        else ((s0 % 8) * 262144 + (s1 % 64) * 4096 + (s2 % 64) * 64 + s3 % 64, 4)
      | _ => (RuneError, 1)
    else (RuneError, 1)

/-- Go `utf8.RuneStart`: the byte is not a continuation byte. -/
def RuneStart (b : UInt8) : Bool := !(0x80 ≤ b.toNat && b.toNat < 0xC0)

/-- The loop of `utf8.DecodeLastRuneInString` that walks back from `start`
to the nearest rune start, not below `lim`; `n` bounds the number of steps.
The result is the final `start`, which Go clamps at 0. -/
def lastRuneStart (s : Bytes) (lim : Nat) : Nat → Nat → Nat
  | 0, start => start
  | n + 1, start =>
    -- `for start--; start >= lim; start--`
    if start = 0 then 0
    else
      let start1 := start - 1
      if start1 < lim then start1
      else if RuneStart (s.getD start1 0) then start1
      else lastRuneStart s lim n start1

/-- Go `utf8.DecodeLastRuneInString`: the last rune of `s` and its width. -/
def DecodeLastRuneInString (s : Bytes) : Nat × Nat :=
  let n := s.length
  if n = 0 then (RuneError, 0)
  else
    let r := (s.getD (n - 1) 0).toNat
    if r < RuneSelf then (r, 1)
    else
      let lim := n - 4
      let start := lastRuneStart s lim 4 (n - 1)
      let d := DecodeRuneInString (s.drop start)
      if start + d.2 ≠ n then (RuneError, 1) else d

/-- Go `unicode.IsSpace`. -/
def IsSpace (r : Nat) : Bool :=
  if r ≤ 0xFF then
    r = 9 || r = 10 || r = 11 || r = 12 || r = 13 || r = 32 || r = 0x85 || r = 0xA0
  else
    r = 0x1680 || (0x2000 ≤ r && r ≤ 0x200A) || r = 0x2028 || r = 0x2029 ||
      r = 0x202F || r = 0x205F || r = 0x3000

/-- The table `asciiSpace` of package `strings`. -/
def asciiSpace (c : UInt8) : Bool :=
  c = 9 || c = 10 || c = 11 || c = 12 || c = 13 || c = 32

/-! ## Package `strings` -/

/-- The loop of `strings.indexFunc s unicode.IsSpace false` followed by the
slice `s[i:]` of `strings.TrimLeftFunc`: runes are decoded from the left and
dropped while they are spaces; `skip` counts the bytes of the current rune
still to drop. -/
def trimLeftSpaceAux : Nat → Bytes → Bytes
  | _, [] => []
  | skip + 1, _ :: cs => trimLeftSpaceAux skip cs
  | 0, c :: cs =>
    let d := DecodeRuneInString (c :: cs)
    if IsSpace d.1 then trimLeftSpaceAux (d.2 - 1) cs else c :: cs

/-- Go `strings.TrimLeftFunc(s, unicode.IsSpace)`. -/
def TrimLeftFunc (s : Bytes) : Bytes := trimLeftSpaceAux 0 s

/-- Go `strings.lastIndexFunc(s, unicode.IsSpace, false)` started at index
`i`: the index of the last rune of `s[0:i]` that is not a space, or `-1`.
Every step lowers `i` by the width of a rune, at least 1, so `fuel = i` is
enough. -/
def lastIndexFunc (s : Bytes) : Nat → Nat → Int
  | 0, _ => -1
  | fuel + 1, i =>
    if i = 0 then -1
    else
      let d := DecodeLastRuneInString (s.take i)
      let i1 := i - d.2
      if IsSpace d.1 = false then (i1 : Int) else lastIndexFunc s fuel i1

/-- Go `strings.TrimRightFunc(s, unicode.IsSpace)`. -/
def TrimRightFunc (s : Bytes) : Bytes :=
  let i := lastIndexFunc s s.length s.length
  if 0 ≤ i ∧ RuneSelf ≤ (s.getD i.toNat 0).toNat then
    s.take (i.toNat + (DecodeRuneInString (s.drop i.toNat)).2)
  else
    s.take (i + 1).toNat

/-- Go `strings.TrimFunc(s, unicode.IsSpace)`. -/
def TrimFunc (s : Bytes) : Bytes := TrimRightFunc (TrimLeftFunc s)

/-- The second loop of `strings.TrimSpace`, on the reversed string: ASCII
spaces are dropped from the end; a byte that is not ASCII hands the rest to
`TrimRightFunc`. -/
def trimSpaceRight : Bytes → Bytes
  | [] => []
  | c :: cs =>
    if RuneSelf ≤ c.toNat then TrimRightFunc (c :: cs).reverse
    else if asciiSpace c then trimSpaceRight cs
    else (c :: cs).reverse

/-- Go `strings.TrimSpace`: the first loop drops ASCII spaces from the start
and hands the rest to `TrimFunc` at the first byte that is not ASCII; at an
ASCII byte that is not a space the second loop trims the end. -/
def TrimSpace : Bytes → Bytes
  | [] => []
  | c :: cs =>
    if RuneSelf ≤ c.toNat then TrimFunc (c :: cs)
    else if asciiSpace c then TrimSpace cs
    else trimSpaceRight (c :: cs).reverse

/-- Go `strings.genSplit(s, sep, 0, n)` for a non-empty `sep`, as a scan of
`s`: `k` is the number of cuts still allowed, `skip` the bytes of a matched
separator still to pass over, `acc` the piece being collected (reversed). -/
def genSplit (sep : Bytes) : Nat → Nat → Bytes → Bytes → List Bytes
  | _, _, [], acc => [acc.reverse]
  | k, skip + 1, _ :: cs, acc => genSplit sep k skip cs acc
  | 0, 0, c :: cs, acc => [acc.reverse ++ c :: cs]
  | k + 1, 0, c :: cs, acc =>
    if sep.isPrefixOf (c :: cs) then
      acc.reverse :: genSplit sep k (sep.length - 1) cs []
    else genSplit sep (k + 1) 0 cs (c :: acc)

/-- Go `strings.Split(s, sep)` for a non-empty `sep` (the program splits on
`" "` and on `", "`): all pieces of `s` between occurrences of `sep`. A string
of `n` bytes holds at most `n` occurrences. -/
def Split (s sep : Bytes) : List Bytes := genSplit sep s.length 0 s []

/-- Go `strings.SplitN(s, sep, n)` for a non-empty `sep`: `nil` for `n = 0`,
at most `n` pieces for `n > 0` (the last is the unsplit rest), all pieces for
`n < 0`. -/
def SplitN (s sep : Bytes) (n : Int) : List Bytes :=
  if n = 0 then []
  else if n < 0 then Split s sep
  else genSplit sep (n.toNat - 1) 0 s []

/-- The decimal digits of a natural number, most significant first. -/
def digits (n : Nat) : Bytes := (Nat.toDigits 10 n).map fun c => c.toNat.toUInt8

/-- Go `strconv.Itoa`. -/
def Itoa (i : Int) : Bytes :=
  if i < 0 then 45 :: digits i.natAbs else digits i.natAbs

/-! ## `bufio.Reader` over a byte slice -/

/-- Go `(*bufio.Reader).ReadString(delim)` on a reader whose unread bytes are
`r`: the bytes up to and including the first `delim`, the reader afterwards,
and whether the delimiter was found. When it is not found the reader is
drained, the bytes read so far are returned and the error is `io.EOF`
(`false` here). -/
def ReadString (delim : UInt8) : Bytes → Bytes × Bytes × Bool
  | [] => ([], [], false)
  | c :: cs =>
    if c = delim then ([c], cs, true)
    else
      let r := ReadString delim cs
      (c :: r.1, r.2.1, r.2.2)

/-! ## Data model -/

/-- Source: `type Headers map[string]string`. -/
abbrev Headers := AList (fun _ : Bytes => Bytes)

/-- An entry of a `Headers` map. -/
abbrev Entry := Sigma (fun _ : Bytes => Bytes)

/-- The Go index expression `h[key]` on a map: the stored value, or the zero
value `""` when the key is absent. -/
def Headers.get (h : Headers) (key : Bytes) : Bytes := (h.lookup key).getD []

/-- Source: `type Request struct`. -/
structure Request where
  Method : Bytes
  Target : Bytes
  HttpVersion : Bytes
  Headers : Headers
  Body : Bytes
  deriving DecidableEq

/-- The errors `ParseRequest` returns, by the `fmt.Errorf` call that builds
them. A `bufio.Reader` over a `bytes.Reader` fails with `io.EOF` only, so the
errors of lines 65 and 92 of the source cannot arise and have no
constructor. -/
inductive ParseError where
  -- line 41: "Failed to read request line"
  | readRequestLine
  -- line 47: "Invalid request line format", with the trimmed line
  | invalidRequestLine (reqLine : Bytes)
  deriving DecidableEq

/-- Source: `type ResponseParam struct`. -/
structure ResponseParam where
  Status : Bytes
  Headers : Headers
  Body : Bytes
  deriving DecidableEq

/-! ## `ParseRequest` -/

/-- The header loop of `ParseRequest` (source lines 59-82) on the reader `r`
and the headers collected so far; the result is the headers and the reader
after the loop. Each turn reads one line: at `io.EOF` (no line feed left) the
loop ends and the bytes read are dropped; a line that trims to `""` ends it;
a line with no colon is skipped; any other line sets `Headers[key] = value`.
Every turn that continues consumes a line feed, so `fuel` above the length of
`r` is never used up (`parseHeaders_fuel`). -/
def parseHeaders : Nat → Bytes → Headers → Headers × Bytes
  | 0, r, h => (h, r)
  | fuel + 1, r, h =>
    let rd := ReadString 10 r
    if rd.2.2 = false then (h, rd.2.1)
    else
      let headerLine := TrimSpace rd.1
      if headerLine = [] then (h, rd.2.1)
      else
        match SplitN headerLine (bytes ":") 2 with
        | [k, v] => parseHeaders fuel rd.2.1 (h.insert (TrimSpace k) (TrimSpace v))
        | _ => parseHeaders fuel rd.2.1 h

/-- Source: `func ParseRequest(rawRequest []byte) (*Request, error)`. The
result `(nil, err)` is `.error`, the result `(req, nil)` is `.ok`. -/
def ParseRequest (rawRequest : Bytes) : Except ParseError Request :=
  let rd := ReadString 10 rawRequest
  if rd.2.2 = false then .error .readRequestLine
  else
    let reqLine := TrimSpace rd.1
    match Split reqLine (bytes " ") with
    | [method, target, version] =>
      let hb := parseHeaders (rd.2.1.length + 1) rd.2.1 ∅
      .ok { Method := method, Target := target, HttpVersion := version,
            Headers := hb.1, Body := hb.2 }
    | _ => .error (.invalidRequestLine reqLine)

/-! ## `CreateResponse` -/

/-- The order in which a `range` loop visits the entries of a map. Go leaves
it unspecified: any enumeration of the entries, each once, is possible. -/
structure MapRange where
  order : Headers → List Entry
  perm : ∀ h : Headers, (order h).Perm h.entries

/-- One turn of the loop of `CreateResponse`: `fmt.Sprintf("%s: %s", key,
value)` followed by `CLRF`. -/
def headerLine (e : Entry) : Bytes := e.1 ++ bytes ": " ++ e.2 ++ CLRF

/-- The bytes `CreateResponse` writes to its `strings.Builder` once the
headers are final, for the entries in the order visited. -/
def writeResponse (status : Bytes) (entries : List Entry) (body : Bytes) : Bytes :=
  status ++ CLRF ++ (entries.map headerLine).flatten ++ CLRF ++ body

/-- The headers `CreateResponse` serialises: `Content-Length` is set to
`strconv.Itoa(len(params.Body))` when the map has no such key. -/
def withContentLength (params : ResponseParam) : Headers :=
  if params.Headers.lookup (bytes "Content-Length") = none then
    params.Headers.insert (bytes "Content-Length") (Itoa params.Body.length)
  else params.Headers

/-- Source: `func CreateResponse(params ResponseParam) []byte`. The warning
printed for an empty status has no effect on the result. -/
def CreateResponse (R : MapRange) (params : ResponseParam) : Bytes :=
  writeResponse params.Status (R.order (withContentLength params)) params.Body

/-! ## `MatchPath` -/

/-- A regular expression of the shape `^lit(.*)$`, `lit` a literal: the two
patterns the program compiles are `^\/echo\/(.*)$` and `^\/files\/(.*)$`. -/
structure RoutePattern where
  lit : Bytes
  deriving DecidableEq

/-- Source: the pattern of line 208. -/
def echoPattern : RoutePattern := ⟨bytes "/echo/"⟩

/-- Source: the pattern of line 209. -/
def filePattern : RoutePattern := ⟨bytes "/files/"⟩

/-- Source: `func MatchPath(pattern string, target string) (bool, []string)`
on a pattern `^lit(.*)$`. In Go's `regexp`, `.` matches any character but a
line feed (a byte that is not valid UTF-8 counts as a character) and `$`
matches at the end of the text only, so the target matches when it starts
with `lit` and no line feed follows; `FindStringSubmatch` is then the whole
target and the text after `lit`. -/
def MatchPath (pattern : RoutePattern) (target : Bytes) : Bool × List Bytes :=
  if pattern.lit.isPrefixOf target = true ∧ (10 : UInt8) ∉ target.drop pattern.lit.length then
    (true, [target, target.drop pattern.lit.length])
  else (false, [])

/-! ## `GzipBytes` and `handleEncoding` -/

/-- Package `compress/gzip` as the program uses it. `compress` is what
`GzipBytes` computes with a writer of level `gzip.BestSpeed` over a
`bytes.Buffer`; `decompress` is reading a whole stream through
`gzip.NewReader`. The laws are those of the library: the level is a valid one
and writes into a `bytes.Buffer` do not fail, so the writer returns no error;
what the writer produces the reader gives back; and the reader rejects the
empty input (`NewReader` returns `io.EOF` when it cannot read a header). -/
structure GzipCodec where
  compress : Bytes → Except String Bytes
  decompress : Bytes → Option Bytes
  compress_ok : ∀ b, ∃ z, compress b = .ok z
  roundtrip : ∀ b z, compress b = .ok z → decompress z = some b
  decompress_nil : decompress [] = none

/-- Source: `func GzipBytes(in []byte) ([]byte, error)`. -/
def GzipBytes (G : GzipCodec) (input : Bytes) : Except String Bytes := G.compress input

/-- Source: the loop of `handleEncoding` over `acceptEncodings` that sets
`hasGzip`. -/
def hasGzip (req : Request) : Bool :=
  (Split (req.Headers.get (bytes "Accept-Encoding")) (bytes ", ")).any
    fun en => en = bytes "gzip"

/-- Source: `func handleEncoding(req *Request, resp *ResponseParam) error`.
The result is `resp` after the call and the returned error, if any. -/
def handleEncoding (G : GzipCodec) (req : Request) (resp : ResponseParam) :
    ResponseParam × Option String :=
  if hasGzip req then
    let resp1 := { resp with Headers := resp.Headers.insert (bytes "Content-Encoding") (bytes "gzip") }
    if 0 < resp1.Body.length then
      match GzipBytes G resp1.Body with
      | .error err => (resp1, some err)
      | .ok compressed =>
        ({ resp1 with
            Headers := resp1.Headers.insert (bytes "Content-Length") (Itoa compressed.length),
            Body := compressed }, none)
    else (resp1, none)
  else
    ({ resp with Headers := resp.Headers.erase (bytes "Content-Encoding") }, none)

/-! ## `handleRequest` -/

/-- The filesystem as the program sees it, over a state `σ`: `os.ReadFile`
gives the bytes of a file or fails (`none`); `os.WriteFile` gives the state
afterwards and whether it succeeded. -/
structure FileSystem (σ : Type) where
  ReadFile : σ → Bytes → Option Bytes
  WriteFile : σ → Bytes → Bytes → σ × Bool

/-- Source: the initial value of `respParam`, lines 202-206. -/
def notFound : ResponseParam :=
  { Status := bytes "HTTP/1.1 404 Not Found", Headers := ∅, Body := bytes "Not Found" }

/-- Source: lines 202-255 of `handleRequest`, the route selection: the
response parameters before encoding, and the filesystem afterwards. `dir` is
the value of the `-directory` flag. -/
def selectRoute {σ : Type} (F : FileSystem σ) (fs : σ) (dir : Bytes) (req : Request) :
    ResponseParam × σ :=
  let respParam := notFound
  let matchedEcho := MatchPath echoPattern req.Target
  let matchedFile := MatchPath filePattern req.Target
  if req.Target = bytes "/" then
    ({ Status := bytes "HTTP/1.1 200 OK",
       Headers := respParam.Headers.insert (bytes "Content-Type") (bytes "text/plain"),
       Body := [] }, fs)
  else if req.Target = bytes "/user-agent" then
    let userAgent := req.Headers.get (bytes "User-Agent")
    ({ Status := bytes "HTTP/1.1 200 OK",
       Headers := respParam.Headers.insert (bytes "Content-Type") (bytes "text/plain"),
       Body := userAgent }, fs)
  else if matchedEcho.1 = true ∧ 1 < matchedEcho.2.length then
    let matched := matchedEcho.2.getD 1 []
    ({ Status := bytes "HTTP/1.1 200 OK",
       Headers := respParam.Headers.insert (bytes "Content-Type") (bytes "text/plain"),
       Body := matched }, fs)
  else if matchedFile.1 = true ∧ 1 < matchedFile.2.length then
    let filename := matchedFile.2.getD 1 []
    let path := dir ++ filename
    if req.Method = bytes "GET" then
      match F.ReadFile fs path with
      | none =>
        ({ Status := bytes "HTTP/1.1 404 Not Found",
           Headers := respParam.Headers.insert (bytes "Content-Type") (bytes "text/plain"),
           Body := bytes "Not Found" }, fs)
      | some fb =>
        ({ Status := bytes "HTTP/1.1 200 OK",
           Headers := respParam.Headers.insert (bytes "Content-Type")
             (bytes "application/octet-stream"),
           Body := fb }, fs)
    else if req.Method = bytes "POST" then
      let w := F.WriteFile fs path req.Body
      if w.2 = false then
        ({ respParam with Status := bytes "HTTP/1.1 500 Server Error" }, w.1)
      else
        ({ Status := bytes "HTTP/1.1 201 Created",
           Headers := respParam.Headers.insert (bytes "Content-Type")
             (bytes "application/octet-stream"),
           Body := [] }, w.1)
    else (respParam, fs)
  else (respParam, fs)

/-- Source: lines 257-259 of `handleRequest`: the response parameters after
`handleEncoding`, whose returned error the caller drops. -/
def encoded {σ : Type} (G : GzipCodec) (F : FileSystem σ) (fs : σ) (dir : Bytes)
    (req : Request) : ResponseParam :=
  (handleEncoding G req (selectRoute F fs dir req).1).1

/-- Source: lines 202-260 of `handleRequest` for a parsed request: the bytes
passed to `c.Write`. -/
def response {σ : Type} (G : GzipCodec) (R : MapRange) (F : FileSystem σ) (fs : σ)
    (dir : Bytes) (req : Request) : Bytes :=
  CreateResponse R (encoded G F fs dir req)

/-- What a call of `handleRequest` has done when it ends: the arguments of
the calls of `c.Write` in order, the filesystem, and whether it ended in the
run-time panic of `req.Target` on a nil `req` (line 208). The function has no
`return` and calls itself after each response, so a panic is the only way it
ends; the deferred `c.Close()` runs then. -/
structure ConnLog (σ : Type) where
  written : List Bytes
  fs : σ
  nilDereference : Bool

/-- Source: `func handleRequest(c net.Conn, dir *string)`. The connection is
the list of what the successive calls of `c.Read` deliver (`reqBuf[:n]`);
when the list is used up the peer is gone and `c.Read` returns `n = 0` and an
error. An error of `c.Read` or of `ParseRequest` is printed and execution
goes on; after a failed `ParseRequest` the pointer `req` is nil, and line 208
dereferences it. `ParseRequest` fails on the empty buffer
(`ParseRequest_nil`), which is the case of the used-up list. -/
def handleRequest {σ : Type} (G : GzipCodec) (R : MapRange) (F : FileSystem σ) (dir : Bytes) :
    σ → List Bytes → ConnLog σ
  | fs, [] => { written := [], fs := fs, nilDereference := true }
  | fs, reqBuf :: reads =>
    match ParseRequest reqBuf with
    | .error _ => { written := [], fs := fs, nilDereference := true }
    | .ok req =>
      let respParam := selectRoute F fs dir req
      let resp := CreateResponse R (handleEncoding G req respParam.1).1
      let rest := handleRequest G R F dir respParam.2 reads
      { rest with written := resp :: rest.written }

/-! ## Vocabulary of the statements -/

/-- Source lines 74-81 of `ParseRequest`: what a trimmed, non-empty header
line does to the headers. Split at the first colon, it sets
`Headers[key] = value`; with no colon it is skipped. -/
def setHeader (h : Headers) (headerLine : Bytes) : Headers :=
  match SplitN headerLine (bytes ":") 2 with
  | [k, v] => h.insert (TrimSpace k) (TrimSpace v)
  | _ => h

/-- The buffer made of the given lines, each followed by a line feed. -/
def lines (hs : List Bytes) : Bytes := (hs.map fun c => c ++ [10]).flatten

/-- The headers the loop of `ParseRequest` collects from lines that are not
blank, in order, starting from `h`. -/
def headersOfLines (h : Headers) (hs : List Bytes) : Headers :=
  hs.foldl (fun acc c => setHeader acc (TrimSpace (c ++ [10]))) h

/-- A byte below `0x80` that is not an ASCII space. -/
def plainByte (c : UInt8) : Bool := decide (c.toNat < 0x80) && !asciiSpace c

/-- The text is not empty and both its first and its last byte are plain:
it has no space around it. -/
def plainEnds (s : Bytes) : Bool := plainByte (s.headD 32) && plainByte (s.reverse.headD 32)

/-- Neither the name nor the value of the entry holds a line feed. -/
def lineFree (e : Entry) : Prop := (10 : UInt8) ∉ e.1 ∧ (10 : UInt8) ∉ e.2

/-! ## Instances for evaluating the definitions -/

/-- The `range` order that visits the entries as the association list stores
them. -/
def listOrder : MapRange where
  order h := h.entries
  perm _ := List.Perm.refl _

/-- A codec that satisfies the laws of `GzipCodec`: it puts the two magic
bytes of a gzip header before the input. It stands for the library where a
definition is evaluated and is not the encoding Go produces. -/
def frameCodec : GzipCodec where
  compress b := .ok (0x1f :: 0x8b :: b)
  decompress z :=
    match z with
    | 0x1f :: 0x8b :: b => some b
    | _ => none
  compress_ok b := ⟨_, rfl⟩
  roundtrip b z h := by
    cases h
    rfl
  decompress_nil := rfl

/-- A filesystem with no file, on which every write fails. -/
def noFiles : FileSystem Unit where
  ReadFile _ _ := none
  WriteFile _ _ _ := ((), false)

/-- A request with `Accept-Encoding: gzip` and nothing else. -/
def gzipRequest : Request :=
  { Method := bytes "GET", Target := bytes "/", HttpVersion := bytes "HTTP/1.1",
    Headers := (∅ : Headers).insert (bytes "Accept-Encoding") (bytes "gzip"), Body := [] }

/-- The response parameters the route `/` selects: status 200 and an empty
body. -/
def emptyOk : ResponseParam :=
  { Status := bytes "HTTP/1.1 200 OK",
    Headers := (∅ : Headers).insert (bytes "Content-Type") (bytes "text/plain"), Body := [] }

/-- The route `/echo/abc` response parameters, before encoding. -/
def echoAbc : ResponseParam :=
  { Status := bytes "HTTP/1.1 200 OK",
    Headers := (∅ : Headers).insert (bytes "Content-Type") (bytes "text/plain"),
    Body := bytes "abc" }

/-- A request with no header at all. -/
def plainRequest : Request :=
  { Method := bytes "GET", Target := bytes "/", HttpVersion := bytes "HTTP/1.1",
    Headers := ∅, Body := [] }

/-- Response parameters that already carry `Content-Encoding: gzip`. -/
def staleEncoding : ResponseParam :=
  { Status := bytes "HTTP/1.1 200 OK",
    Headers := (∅ : Headers).insert (bytes "Content-Encoding") (bytes "gzip"),
    Body := bytes "abc" }

/-- A filesystem that is a mapping from path to bytes: a read gives the bytes
stored under the path and fails when there are none; a write stores the bytes
under the path, replacing what was there, and always succeeds. -/
def mapFS : FileSystem (Bytes → Option Bytes) where
  ReadFile fs path := fs path
  WriteFile fs path data := (fun q => if q = path then some data else fs q, true)

/-- The filesystem with no file, as a mapping. -/
def emptyFiles : Bytes → Option Bytes := fun _ => none

/-! ## The headers as the specification words them -/

/-- The lines of a buffer that end in a line feed, each without it; bytes
after the last line feed form no line. `acc` is the line being read,
reversed. -/
def lfLinesAux : Bytes → Bytes → List Bytes
  | [], _ => []
  | c :: cs, acc =>
    if c = 10 then acc.reverse :: lfLinesAux cs [] else lfLinesAux cs (c :: acc)

/-- The lines of a buffer that end in a line feed. -/
def lfLines (r : Bytes) : List Bytes := lfLinesAux r []

/-- A line is blank when nothing but whitespace stands before its line
feed. -/
def isBlank (c : Bytes) : Bool := TrimSpace (c ++ [10]) = []

/-- The lines between the request line and the first blank line: of the
lines of the buffer the first is the request line, and the header lines run
up to the first blank one, or to the last line feed when none is blank. -/
def headerSection (rawRequest : Bytes) : List Bytes :=
  ((lfLines rawRequest).drop 1).takeWhile fun c => !isBlank c

/-- A text split at its first colon only: what stands before it and what
stands after it; nothing when it holds no colon. -/
def splitFirstColon (l : Bytes) : Option (Bytes × Bytes) :=
  if (58 : UInt8) ∈ l then
    some (l.takeWhile fun b => b != 58, (l.dropWhile fun b => b != 58).drop 1)
  else none

/-- The name and value a header line carries: the line, stripped, is split at
its first colon and both sides are stripped; a line with no colon carries
none. -/
def lineEntry (c : Bytes) : Option (Bytes × Bytes) :=
  (splitFirstColon (TrimSpace (c ++ [10]))).map fun kv => (TrimSpace kv.1, TrimSpace kv.2)

/-- The value of the last of the lines that carries the name, if any. -/
def lastValue (hs : List Bytes) (name : Bytes) : Option Bytes :=
  ((hs.filterMap lineEntry).reverse.find? fun kv => kv.1 = name).map Prod.snd

/-- A request buffer whose header section repeats a name, holds colons in a
value, spaces around names and values, and a line with no colon. -/
def headersBuffer : Bytes :=
  bytes "GET / HTTP/1.1\r\nHost: a:1\r\nX-Id : 7\r\nbad line\r\nHost:  b:2 \r\n\r\nLast: x\n"

/-- The request `ParseRequest` returns for `headersBuffer`. -/
def headersRequest : Request :=
  { Method := bytes "GET", Target := bytes "/", HttpVersion := bytes "HTTP/1.1",
    Headers := (((∅ : Headers).insert (bytes "Host") (bytes "a:1")).insert
      (bytes "X-Id") (bytes "7")).insert (bytes "Host") (bytes "b:2"),
    Body := bytes "Last: x\n" }

/-! ## Theorems -/

/-! ## Serialisation lemmas -/

theorem bytes_contentLength_colon :
    bytes "Content-Length: " = bytes "Content-Length" ++ bytes ": " := by decide

theorem flatten_lines_split (before after : List Entry) (e : Entry) :
    ((before ++ e :: after).map headerLine).flatten =
      (before.map headerLine).flatten ++ headerLine e ++ (after.map headerLine).flatten := by
  simp [List.append_assoc]

/-- Whatever the order of the `range` loop, an entry of the map is visited
exactly once: the visited entries split around it, and no other visited entry
has its key. -/
theorem order_split (R : MapRange) (h : Headers) (k v : Bytes)
    (hl : h.lookup k = some v) :
    ∃ before after : List Entry, R.order h = before ++ ⟨k, v⟩ :: after ∧
      (∀ e ∈ before, e.1 ≠ k) ∧ (∀ e ∈ after, e.1 ≠ k) := by
  have hmem : (⟨k, v⟩ : Entry) ∈ h.entries := AList.mem_lookup_iff.mp (by simp [hl])
  have hmem2 : (⟨k, v⟩ : Entry) ∈ R.order h := (R.perm h).mem_iff.mpr hmem
  obtain ⟨before, after, hsplit⟩ := List.append_of_mem hmem2
  have hnd : (R.order h).NodupKeys := (List.perm_nodupKeys (R.perm h)).mpr h.nodupKeys
  rw [hsplit] at hnd
  have hk : ((before ++ ⟨k, v⟩ :: after).keys).Nodup := hnd
  simp only [List.keys, List.map_append, List.map_cons] at hk
  have h1 := (List.nodup_cons.mp (List.nodup_middle.mp hk)).1
  refine ⟨before, after, hsplit, ?_, ?_⟩
  · intro e he heq
    apply h1
    simp only [List.mem_append, List.mem_map]
    exact Or.inl ⟨e, he, heq⟩
  · intro e he heq
    apply h1
    simp only [List.mem_append, List.mem_map]
    exact Or.inr ⟨e, he, heq⟩

theorem lookup_withContentLength_of_none (p : ResponseParam)
    (h : p.Headers.lookup (bytes "Content-Length") = none) :
    (withContentLength p).lookup (bytes "Content-Length") = some (Itoa p.Body.length) := by
  simp [withContentLength, h]

theorem lookup_withContentLength_of_some (p : ResponseParam) (v : Bytes)
    (h : p.Headers.lookup (bytes "Content-Length") = some v) :
    (withContentLength p).lookup (bytes "Content-Length") = some v := by
  simp [withContentLength, h]

/-- The serialised response around a header the final map holds. -/
theorem createResponse_split (R : MapRange) (p : ResponseParam) (k v : Bytes)
    (hl : (withContentLength p).lookup k = some v) :
    ∃ before after : List Entry,
      CreateResponse R p =
        p.Status ++ CLRF ++ (before.map headerLine).flatten ++
          (k ++ bytes ": " ++ v ++ CLRF) ++ (after.map headerLine).flatten ++ CLRF ++ p.Body ∧
      (∀ e ∈ before, e.1 ≠ k) ∧ (∀ e ∈ after, e.1 ≠ k) := by
  obtain ⟨before, after, hsplit, hb, ha⟩ := order_split R (withContentLength p) k v hl
  refine ⟨before, after, ?_, hb, ha⟩
  simp only [CreateResponse, writeResponse, hsplit, flatten_lines_split, headerLine,
    List.append_assoc]

/-- C2: for every status line, every headers mapping with no "Content-Length"
entry and every body, the output of `CreateResponse` (whatever the order in
which the map is ranged over) holds, among its header lines, the line
"Content-Length: n" with `n` the decimal length of the body; for an empty or
absent body that line is "Content-Length: 0". -/
theorem createResponse_default_content_length (R : MapRange) (status : Bytes)
    (headers : Headers) (body : Bytes)
    (h : headers.lookup (bytes "Content-Length") = none) :
    (∃ before after : List Entry,
      CreateResponse R ⟨status, headers, body⟩ =
        status ++ CLRF ++ (before.map headerLine).flatten ++
          (bytes "Content-Length: " ++ Itoa body.length ++ CLRF) ++
          (after.map headerLine).flatten ++ CLRF ++ body) ∧
    (body = [] → Itoa body.length = bytes "0") := by
  constructor
  · obtain ⟨before, after, heq, -, -⟩ :=
      createResponse_split R ⟨status, headers, body⟩ (bytes "Content-Length")
        (Itoa body.length) (lookup_withContentLength_of_none _ h)
    exact ⟨before, after, by rw [heq, bytes_contentLength_colon]⟩
  · rintro rfl
    decide

/-! ## Decimal digits -/

theorem digitChar_ne_lf : ∀ d, d < 10 → (Nat.digitChar d).toNat.toUInt8 ≠ 10 := by decide

theorem toDigitsCore_no_lf (fuel : Nat) : ∀ (n : Nat) (acc : List Char),
    (∀ c ∈ acc, c.toNat.toUInt8 ≠ 10) →
    ∀ c ∈ Nat.toDigitsCore 10 fuel n acc, c.toNat.toUInt8 ≠ 10 := by
  induction fuel with
  | zero => intro n acc hacc c hc; simpa [Nat.toDigitsCore] using hacc c (by simpa [Nat.toDigitsCore] using hc)
  | succ f ih =>
    intro n acc hacc c hc
    simp only [Nat.toDigitsCore] at hc
    have hd : ∀ c ∈ Nat.digitChar (n % 10) :: acc, c.toNat.toUInt8 ≠ 10 := by
      intro c hc
      rcases List.mem_cons.mp hc with rfl | hc
      · exact digitChar_ne_lf _ (Nat.mod_lt _ (by decide))
      · exact hacc c hc
    split at hc
    · exact hd c hc
    · exact ih _ _ hd c hc

theorem digits_no_lf (n : Nat) : (10 : UInt8) ∉ digits n := by
  intro h
  simp only [digits, List.mem_map] at h
  obtain ⟨c, hc, hc10⟩ := h
  exact toDigitsCore_no_lf _ _ [] (by simp) c hc hc10

theorem Itoa_natCast_no_lf (n : Nat) : (10 : UInt8) ∉ Itoa (n : Int) := by
  have : ¬ ((n : Int) < 0) := by omega
  simp only [Itoa, this, if_false, Int.natAbs_ofNat]
  exact digits_no_lf n

/-! ## Headers of the response pipeline -/

theorem entries_insert_forall (P : Entry → Prop) (s : Headers) (k v : Bytes)
    (hs : ∀ e ∈ s.entries, P e) (hkv : P ⟨k, v⟩) :
    ∀ e ∈ (s.insert k v).entries, P e := by
  intro e he
  rw [AList.insert_entries] at he
  rcases List.mem_cons.mp he with rfl | he
  · exact hkv
  · exact hs e ((List.kerase_sublist k s.entries).subset he)

theorem entries_erase_forall (P : Entry → Prop) (s : Headers) (k : Bytes)
    (hs : ∀ e ∈ s.entries, P e) :
    ∀ e ∈ (s.erase k).entries, P e := by
  intro e he
  exact hs e ((List.kerase_sublist k s.entries).subset he)

theorem contentType_ne_contentLength : bytes "Content-Type" ≠ bytes "Content-Length" := by decide
theorem contentLength_ne_contentType : bytes "Content-Length" ≠ bytes "Content-Type" := by decide
theorem contentLength_ne_contentEncoding :
    bytes "Content-Length" ≠ bytes "Content-Encoding" := by decide

/-- What every branch of the route selection leaves in `respParam`: one of
four status lines, and headers that are empty or hold `Content-Type` only. -/
theorem selectRoute_shape {σ : Type} (F : FileSystem σ) (fs : σ) (dir : Bytes) (req : Request) :
    ((selectRoute F fs dir req).1.Status = bytes "HTTP/1.1 200 OK" ∨
      (selectRoute F fs dir req).1.Status = bytes "HTTP/1.1 404 Not Found" ∨
      (selectRoute F fs dir req).1.Status = bytes "HTTP/1.1 500 Server Error" ∨
      (selectRoute F fs dir req).1.Status = bytes "HTTP/1.1 201 Created") ∧
    ((selectRoute F fs dir req).1.Headers = ∅ ∨
      (selectRoute F fs dir req).1.Headers =
        (∅ : Headers).insert (bytes "Content-Type") (bytes "text/plain") ∨
      (selectRoute F fs dir req).1.Headers =
        (∅ : Headers).insert (bytes "Content-Type") (bytes "application/octet-stream")) := by
  unfold selectRoute
  simp only [notFound]
  split_ifs <;> (try split) <;> simp

/-! ## The branches of `handleEncoding` -/

theorem handleEncoding_of_not_hasGzip (G : GzipCodec) (req : Request) (resp : ResponseParam)
    (hg : hasGzip req = false) :
    handleEncoding G req resp =
      ({ resp with Headers := resp.Headers.erase (bytes "Content-Encoding") }, none) := by
  simp [handleEncoding, hg]

theorem handleEncoding_of_empty (G : GzipCodec) (req : Request) (resp : ResponseParam)
    (hg : hasGzip req = true) (hb : resp.Body = []) :
    handleEncoding G req resp =
      ({ resp with Headers := resp.Headers.insert (bytes "Content-Encoding") (bytes "gzip") },
        none) := by
  simp [handleEncoding, hg, hb]

theorem handleEncoding_of_ok (G : GzipCodec) (req : Request) (resp : ResponseParam)
    (compressed : Bytes)
    (hg : hasGzip req = true) (hb : resp.Body ≠ []) (hz : G.compress resp.Body = .ok compressed) :
    handleEncoding G req resp =
      ({ Status := resp.Status,
         Headers := (resp.Headers.insert (bytes "Content-Encoding") (bytes "gzip")).insert
           (bytes "Content-Length") (Itoa compressed.length),
         Body := compressed }, none) := by
  have hpos : 0 < resp.Body.length := List.length_pos.mpr hb
  simp [handleEncoding, hg, hpos, GzipBytes, hz]

theorem handleEncoding_of_error (G : GzipCodec) (req : Request) (resp : ResponseParam)
    (err : String)
    (hg : hasGzip req = true) (hb : resp.Body ≠ []) (hz : G.compress resp.Body = .error err) :
    handleEncoding G req resp =
      ({ resp with Headers := resp.Headers.insert (bytes "Content-Encoding") (bytes "gzip") },
        some err) := by
  have hpos : 0 < resp.Body.length := List.length_pos.mpr hb
  simp [handleEncoding, hg, hpos, GzipBytes, hz]

/-- The four branches of `handleEncoding` cover every call. -/
theorem handleEncoding_cases (G : GzipCodec) (req : Request) (resp : ResponseParam) :
    (hasGzip req = false ∧ handleEncoding G req resp =
      ({ resp with Headers := resp.Headers.erase (bytes "Content-Encoding") }, none)) ∨
    (∃ err, handleEncoding G req resp =
      ({ resp with Headers := resp.Headers.insert (bytes "Content-Encoding") (bytes "gzip") },
        err)) ∨
    (∃ compressed, handleEncoding G req resp =
      ({ Status := resp.Status,
         Headers := (resp.Headers.insert (bytes "Content-Encoding") (bytes "gzip")).insert
           (bytes "Content-Length") (Itoa compressed.length),
         Body := compressed }, none)) := by
  cases hg : hasGzip req
  · exact Or.inl ⟨rfl, handleEncoding_of_not_hasGzip G req resp hg⟩
  · by_cases hb : resp.Body = []
    · exact Or.inr (Or.inl ⟨none, handleEncoding_of_empty G req resp hg hb⟩)
    · cases hz : G.compress resp.Body with
      | error err => exact Or.inr (Or.inl ⟨some err, handleEncoding_of_error G req resp err hg hb hz⟩)
      | ok z => exact Or.inr (Or.inr ⟨z, handleEncoding_of_ok G req resp z hg hb hz⟩)

theorem lf_not_mem_contentLength : (10 : UInt8) ∉ bytes "Content-Length" := by decide

theorem handleEncoding_status (G : GzipCodec) (req : Request) (resp : ResponseParam) :
    (handleEncoding G req resp).1.Status = resp.Status := by
  rcases handleEncoding_cases G req resp with ⟨-, h⟩ | ⟨err, h⟩ | ⟨z, h⟩ <;> rw [h]

theorem handleEncoding_lineFree (G : GzipCodec) (req : Request) (resp : ResponseParam)
    (h : ∀ e ∈ resp.Headers.entries, lineFree e) :
    ∀ e ∈ (handleEncoding G req resp).1.Headers.entries, lineFree e := by
  have hce : ∀ e ∈ (resp.Headers.insert (bytes "Content-Encoding") (bytes "gzip")).entries,
      lineFree e :=
    entries_insert_forall lineFree _ _ _ h (by constructor <;> decide)
  rcases handleEncoding_cases G req resp with ⟨-, h1⟩ | ⟨err, h1⟩ | ⟨z, h1⟩ <;> rw [h1]
  · exact entries_erase_forall lineFree _ _ h
  · exact hce
  · exact entries_insert_forall lineFree _ _ _ hce
      ⟨lf_not_mem_contentLength, Itoa_natCast_no_lf _⟩

/-- After `handleEncoding`, a response that came without `Content-Length`
either still has none or carries the length of its (compressed) body. -/
theorem handleEncoding_contentLength (G : GzipCodec) (req : Request) (resp : ResponseParam)
    (h : resp.Headers.lookup (bytes "Content-Length") = none) :
    (handleEncoding G req resp).1.Headers.lookup (bytes "Content-Length") = none ∨
    (handleEncoding G req resp).1.Headers.lookup (bytes "Content-Length") =
      some (Itoa (handleEncoding G req resp).1.Body.length) := by
  have hce : (resp.Headers.insert (bytes "Content-Encoding") (bytes "gzip")).lookup
      (bytes "Content-Length") = none := by
    rw [AList.lookup_insert_ne contentLength_ne_contentEncoding]; exact h
  rcases handleEncoding_cases G req resp with ⟨-, h1⟩ | ⟨err, h1⟩ | ⟨z, h1⟩ <;> rw [h1]
  · left
    show AList.lookup _ (AList.erase _ resp.Headers) = none
    rw [AList.lookup_erase_ne contentLength_ne_contentEncoding]; exact h
  · exact Or.inl hce
  · right; simp

/-! ## The response pipeline -/

theorem selectRoute_contentLength {σ : Type} (F : FileSystem σ) (fs : σ) (dir : Bytes)
    (req : Request) :
    (selectRoute F fs dir req).1.Headers.lookup (bytes "Content-Length") = none := by
  rcases (selectRoute_shape F fs dir req).2 with h | h | h <;> rw [h]
  · rfl
  · rw [AList.lookup_insert_ne contentLength_ne_contentType]; rfl
  · rw [AList.lookup_insert_ne contentLength_ne_contentType]; rfl

theorem selectRoute_lineFree {σ : Type} (F : FileSystem σ) (fs : σ) (dir : Bytes)
    (req : Request) :
    ∀ e ∈ (selectRoute F fs dir req).1.Headers.entries, lineFree e := by
  rcases (selectRoute_shape F fs dir req).2 with h | h | h <;> rw [h]
  · intro e he; cases he
  · exact entries_insert_forall lineFree _ _ _ (by intro e he; cases he)
      (by constructor <;> decide)
  · exact entries_insert_forall lineFree _ _ _ (by intro e he; cases he)
      (by constructor <;> decide)

theorem encoded_status_lineFree {σ : Type} (G : GzipCodec) (F : FileSystem σ) (fs : σ)
    (dir : Bytes) (req : Request) :
    (10 : UInt8) ∉ (encoded G F fs dir req).Status ∧ (encoded G F fs dir req).Status ≠ [] := by
  unfold encoded
  rw [handleEncoding_status]
  rcases (selectRoute_shape F fs dir req).1 with h | h | h | h <;> rw [h] <;> decide

theorem withContentLength_lineFree (p : ResponseParam)
    (h : ∀ e ∈ p.Headers.entries, lineFree e) :
    ∀ e ∈ (withContentLength p).entries, lineFree e := by
  unfold withContentLength
  split_ifs
  · exact entries_insert_forall lineFree _ _ _ h ⟨lf_not_mem_contentLength, Itoa_natCast_no_lf _⟩
  · exact h

/-- C1: for every request and every behaviour of the filesystem and of the
compressor, the bytes that route selection, `handleEncoding` and
`CreateResponse` produce are the status line, header lines, a blank line and
the final (possibly compressed) body; among the header lines exactly one is
"Content-Length: n", and `n` is the decimal length of that final body.
Neither the status line nor any header name or value holds a line feed, so
the blank line before the body is the first one of the output. -/
theorem response_content_length {σ : Type} (G : GzipCodec) (R : MapRange) (F : FileSystem σ)
    (fs : σ) (dir : Bytes) (req : Request) :
    ∃ before after : List Entry,
      response G R F fs dir req =
        (encoded G F fs dir req).Status ++ CLRF ++ (before.map headerLine).flatten ++
          (bytes "Content-Length: " ++ Itoa (encoded G F fs dir req).Body.length ++ CLRF) ++
          (after.map headerLine).flatten ++ CLRF ++ (encoded G F fs dir req).Body ∧
      (∀ e ∈ before ++ after, e.1 ≠ bytes "Content-Length" ∧ lineFree e) ∧
      (10 : UInt8) ∉ (encoded G F fs dir req).Status ∧
      (encoded G F fs dir req).Status ≠ [] ∧
      (10 : UInt8) ∉ Itoa (encoded G F fs dir req).Body.length := by
  have hcl : (withContentLength (encoded G F fs dir req)).lookup (bytes "Content-Length") =
      some (Itoa (encoded G F fs dir req).Body.length) := by
    rcases handleEncoding_contentLength G req (selectRoute F fs dir req).1
      (selectRoute_contentLength F fs dir req) with h | h
    · exact lookup_withContentLength_of_none _ h
    · exact lookup_withContentLength_of_some _ _ h
  have hfree : ∀ e ∈ (withContentLength (encoded G F fs dir req)).entries, lineFree e :=
    withContentLength_lineFree _
      (handleEncoding_lineFree G req _ (selectRoute_lineFree F fs dir req))
  obtain ⟨before, after, hsplit, hb, ha⟩ :=
    order_split R (withContentLength (encoded G F fs dir req)) _ _ hcl
  have hsub : ∀ e ∈ before ++ after, e ∈ (withContentLength (encoded G F fs dir req)).entries := by
    intro e he
    apply (R.perm _).mem_iff.mp
    rw [hsplit]
    rcases List.mem_append.mp he with h | h
    · exact List.mem_append_left _ h
    · exact List.mem_append_right _ (List.mem_cons_of_mem _ h)
  refine ⟨before, after, ?_, ?_, (encoded_status_lineFree G F fs dir req).1,
    (encoded_status_lineFree G F fs dir req).2, Itoa_natCast_no_lf _⟩
  · simp only [response, CreateResponse, writeResponse, hsplit, flatten_lines_split, headerLine,
      bytes_contentLength_colon, List.append_assoc]
  · intro e he
    refine ⟨?_, hfree e (hsub e he)⟩
    rcases List.mem_append.mp he with h | h
    · exact hb e h
    · exact ha e h

/-! ## `handleEncoding` and the `Accept-Encoding` tokens -/

theorem hasGzip_iff (req : Request) :
    hasGzip req = true ↔
      bytes "gzip" ∈ Split (req.Headers.get (bytes "Accept-Encoding")) (bytes ", ") := by
  simp [hasGzip]

theorem hasGzip_eq_false_iff (req : Request) :
    hasGzip req = false ↔
      bytes "gzip" ∉ Split (req.Headers.get (bytes "Accept-Encoding")) (bytes ", ") := by
  rw [← hasGzip_iff]; simp

theorem contentEncoding_ne_contentLength :
    bytes "Content-Encoding" ≠ bytes "Content-Length" := by decide

/-- C3, as stated, fails: for the request `Accept-Encoding: gzip` and response
parameters with an empty body, `handleEncoding` sets `Content-Encoding: gzip`
and leaves the body empty, and the empty byte string is not a gzip stream:
decompressing it does not give the body back, whatever the codec. -/
theorem handleEncoding_empty_body_not_gzip :
    bytes "gzip" ∈ Split (gzipRequest.Headers.get (bytes "Accept-Encoding")) (bytes ", ") ∧
    ∀ G : GzipCodec,
      (handleEncoding G gzipRequest emptyOk).1.Headers.lookup (bytes "Content-Encoding") =
        some (bytes "gzip") ∧
      (handleEncoding G gzipRequest emptyOk).1.Body = [] ∧
      G.decompress (handleEncoding G gzipRequest emptyOk).1.Body ≠ some emptyOk.Body := by
  refine ⟨by decide, fun G => ?_⟩
  have hg : hasGzip gzipRequest = true := by decide
  rw [handleEncoding_of_empty G gzipRequest emptyOk hg rfl]
  refine ⟨by simp, rfl, ?_⟩
  show G.decompress [] ≠ some []
  rw [G.decompress_nil]
  exact fun h => Option.noConfusion h

/-- C3, amended: for every request whose `Accept-Encoding` value, split on
", ", has "gzip" among its tokens, and every response parameters,
`handleEncoding` sets `Content-Encoding` to "gzip"; when the body is not
empty the new body, decompressed, is the body before the call; an empty body
stays empty. -/
theorem handleEncoding_gzip_roundtrip (G : GzipCodec) (req : Request) (resp : ResponseParam)
    (hg : bytes "gzip" ∈ Split (req.Headers.get (bytes "Accept-Encoding")) (bytes ", ")) :
    (handleEncoding G req resp).1.Headers.lookup (bytes "Content-Encoding") =
      some (bytes "gzip") ∧
    (resp.Body ≠ [] → G.decompress (handleEncoding G req resp).1.Body = some resp.Body) ∧
    (resp.Body = [] → (handleEncoding G req resp).1.Body = []) := by
  have hg1 : hasGzip req = true := (hasGzip_iff req).mpr hg
  by_cases hb : resp.Body = []
  · rw [handleEncoding_of_empty G req resp hg1 hb]
    exact ⟨by simp, fun h => absurd hb h, fun _ => hb⟩
  · obtain ⟨z, hz⟩ := G.compress_ok resp.Body
    rw [handleEncoding_of_ok G req resp z hg1 hb hz]
    refine ⟨?_, fun _ => G.roundtrip _ _ hz, fun h => absurd h hb⟩
    show AList.lookup _ (AList.insert _ _ (AList.insert _ _ resp.Headers)) = _
    rw [AList.lookup_insert_ne contentEncoding_ne_contentLength, AList.lookup_insert]

theorem handleEncoding_gzip_roundtrip_witness :
    bytes "gzip" ∈ Split (gzipRequest.Headers.get (bytes "Accept-Encoding")) (bytes ", ") ∧
    (handleEncoding frameCodec gzipRequest echoAbc).1.Headers.lookup (bytes "Content-Encoding") =
      some (bytes "gzip") ∧
    (echoAbc.Body ≠ [] →
      frameCodec.decompress (handleEncoding frameCodec gzipRequest echoAbc).1.Body =
        some echoAbc.Body) ∧
    (echoAbc.Body = [] → (handleEncoding frameCodec gzipRequest echoAbc).1.Body = []) :=
  ⟨by decide, handleEncoding_gzip_roundtrip frameCodec gzipRequest echoAbc (by decide)⟩

/-- A request without an `Accept-Encoding` header has no "gzip" token. -/
theorem no_gzip_of_absent (req : Request)
    (h : req.Headers.lookup (bytes "Accept-Encoding") = none) :
    bytes "gzip" ∉ Split (req.Headers.get (bytes "Accept-Encoding")) (bytes ", ") := by
  simp only [Headers.get, h, Option.getD_none]
  decide

/-- C4: for every request whose `Accept-Encoding` value, split on ", ", does
not have "gzip" among its tokens (a request without the header has the value
"" and the single token ""), and every response parameters, also ones that
carry a `Content-Encoding` entry, the headers after `handleEncoding` have no
`Content-Encoding` entry. -/
theorem handleEncoding_no_gzip (G : GzipCodec) (req : Request) (resp : ResponseParam)
    (hg : bytes "gzip" ∉ Split (req.Headers.get (bytes "Accept-Encoding")) (bytes ", ")) :
    (handleEncoding G req resp).1.Headers.lookup (bytes "Content-Encoding") = none ∧
    bytes "Content-Encoding" ∉ (handleEncoding G req resp).1.Headers := by
  rw [handleEncoding_of_not_hasGzip G req resp ((hasGzip_eq_false_iff req).mpr hg)]
  have h : AList.lookup (bytes "Content-Encoding")
      (AList.erase (bytes "Content-Encoding") resp.Headers) = none := AList.lookup_erase _ _
  exact ⟨h, AList.lookup_eq_none.mp h⟩

theorem handleEncoding_no_gzip_witness :
    staleEncoding.Headers.lookup (bytes "Content-Encoding") = some (bytes "gzip") ∧
    (handleEncoding frameCodec plainRequest staleEncoding).1.Headers.lookup
      (bytes "Content-Encoding") = none ∧
    bytes "Content-Encoding" ∉ (handleEncoding frameCodec plainRequest staleEncoding).1.Headers :=
  ⟨by decide, handleEncoding_no_gzip frameCodec plainRequest staleEncoding
    (no_gzip_of_absent plainRequest (by decide))⟩

/-! ## The reader -/

theorem ReadString_of_not_mem (d : UInt8) (l : Bytes) (h : d ∉ l) :
    ReadString d l = (l, [], false) := by
  induction l with
  | nil => rfl
  | cons c cs ih =>
    have hc : c ≠ d := fun e => h (by simp [e])
    have hcs : d ∉ cs := fun e => h (List.mem_cons_of_mem _ e)
    simp [ReadString, hc, ih hcs]

theorem ReadString_append (d : UInt8) (l rest : Bytes) (h : d ∉ l) :
    ReadString d (l ++ d :: rest) = (l ++ [d], rest, true) := by
  induction l with
  | nil => simp [ReadString]
  | cons c cs ih =>
    have hc : c ≠ d := fun e => h (by simp [e])
    have hcs : d ∉ cs := fun e => h (List.mem_cons_of_mem _ e)
    simp [ReadString, hc, ih hcs]

theorem ReadString_rest_length (d : UInt8) (r : Bytes) :
    (ReadString d r).2.2 = true → (ReadString d r).2.1.length < r.length := by
  induction r with
  | nil => simp [ReadString]
  | cons c cs ih =>
    by_cases hc : c = d
    · simp [ReadString, hc]
    · simp only [ReadString, hc, if_false, List.length_cons]
      intro h
      have := ih h
      omega

/-- The header loop never uses up a fuel above the length of the reader: any
two such fuels give the same result. -/
theorem parseHeaders_fuel (f1 : Nat) : ∀ (f2 : Nat) (r : Bytes) (h : Headers),
    r.length < f1 → r.length < f2 → parseHeaders f1 r h = parseHeaders f2 r h := by
  induction f1 with
  | zero => intro f2 r h h1; omega
  | succ n ih =>
    intro f2 r h h1 h2
    cases f2 with
    | zero => omega
    | succ m =>
      simp only [parseHeaders]
      by_cases hf : (ReadString 10 r).2.2 = false
      · simp [hf]
      · have hf1 : (ReadString 10 r).2.2 = true := by simpa using hf
        have hlen := ReadString_rest_length 10 r hf1
        have e1 : ∀ h1 : Headers, parseHeaders n (ReadString 10 r).2.1 h1 =
            parseHeaders m (ReadString 10 r).2.1 h1 :=
          fun h1 => ih m _ h1 (by omega) (by omega)
        simp only [hf1, Bool.true_eq_false, if_false]
        split_ifs
        · rfl
        · split <;> exact e1 _

/-! ## The request line -/

/-- C5: for every input buffer whose first line (the bytes `ReadString`
returns for the first read), trimmed and split on " ", does not yield exactly
three tokens, `ParseRequest` returns an error and no request. -/
theorem ParseRequest_error_of_not_three_tokens (rawRequest : Bytes)
    (h : (Split (TrimSpace (ReadString 10 rawRequest).1) (bytes " ")).length ≠ 3) :
    ∃ err, ParseRequest rawRequest = .error err := by
  cases hf : (ReadString 10 rawRequest).2.2
  · exact ⟨.readRequestLine, by simp [ParseRequest, hf]⟩
  · refine ⟨.invalidRequestLine (TrimSpace (ReadString 10 rawRequest).1), ?_⟩
    rcases hs : Split (TrimSpace (ReadString 10 rawRequest).1) (bytes " ") with
      _ | ⟨a, _ | ⟨b, _ | ⟨c, _ | ⟨d, l⟩⟩⟩⟩
    · simp [ParseRequest, hf, hs]
    · simp [ParseRequest, hf, hs]
    · simp [ParseRequest, hf, hs]
    · rw [hs] at h
      exact absurd rfl h
    · simp [ParseRequest, hf, hs]

theorem ParseRequest_error_of_not_three_tokens_witness :
    (Split (TrimSpace (ReadString 10 (bytes "GET /\r\n\r\n")).1) (bytes " ")).length ≠ 3 ∧
    ∃ err, ParseRequest (bytes "GET /\r\n\r\n") = .error err :=
  ⟨by decide, ParseRequest_error_of_not_three_tokens (bytes "GET /\r\n\r\n") (by decide)⟩

/-- C6: for every input buffer whose first line ends in a line feed and,
trimmed and split on " ", yields exactly three tokens, `ParseRequest`
succeeds whatever bytes follow the line, and the request holds the three
tokens as `Method`, `Target` and `HttpVersion`. -/
theorem ParseRequest_ok_of_three_tokens (line rest method target version : Bytes)
    (hline : (10 : UInt8) ∉ line)
    (htok : Split (TrimSpace (line ++ [10])) (bytes " ") = [method, target, version]) :
    ∃ req, ParseRequest (line ++ 10 :: rest) = .ok req ∧
      req.Method = method ∧ req.Target = target ∧ req.HttpVersion = version := by
  unfold ParseRequest
  simp only [ReadString_append 10 line rest hline, Bool.true_eq_false, if_false, htok]
  exact ⟨_, rfl, rfl, rfl, rfl⟩

theorem ParseRequest_ok_of_three_tokens_witness :
    (10 : UInt8) ∉ bytes "GET /index.html HTTP/1.1\r" ∧
    Split (TrimSpace (bytes "GET /index.html HTTP/1.1\r" ++ [10])) (bytes " ") =
      [bytes "GET", bytes "/index.html", bytes "HTTP/1.1"] ∧
    ∃ req, ParseRequest (bytes "GET /index.html HTTP/1.1\r" ++ 10 :: [0xFF, 0x00, 10, 10]) = .ok req ∧
      req.Method = bytes "GET" ∧ req.Target = bytes "/index.html" ∧
      req.HttpVersion = bytes "HTTP/1.1" :=
  ⟨by decide, by decide,
    ParseRequest_ok_of_three_tokens _ [0xFF, 0x00, 10, 10] _ _ _ (by decide) (by decide)⟩

/-! ## The connection loop -/

theorem ParseRequest_nil : ParseRequest [] = .error .readRequestLine := rfl

/-- After a failed parse `handleRequest` writes nothing and ends in the nil
dereference, whatever the rest of the connection holds. -/
theorem handleRequest_of_parse_error {σ : Type} (G : GzipCodec) (R : MapRange)
    (F : FileSystem σ) (dir : Bytes) (fs : σ) (reqBuf : Bytes) (reads : List Bytes)
    (err : ParseError) (h : ParseRequest reqBuf = .error err) :
    handleRequest G R F dir fs (reqBuf :: reads) =
      { written := [], fs := fs, nilDereference := true } := by
  simp [handleRequest, h]

/-- C7, the code at the failing input: on the read buffer "GET /\r\n", whose
request line has two tokens, `ParseRequest` fails and `handleRequest` does not
stop: it goes on to `req.Target` with a nil `req` and ends in the run-time
panic, having written nothing. -/
theorem handleRequest_two_tokens_nil_dereference :
    ParseRequest (bytes "GET /\r\n") = .error (.invalidRequestLine (bytes "GET /")) ∧
    handleRequest frameCodec listOrder noFiles [] () [bytes "GET /\r\n"] =
      { written := [], fs := (), nilDereference := true } := by
  constructor
  · rfl
  · exact handleRequest_of_parse_error _ _ _ _ _ _ _ (.invalidRequestLine (bytes "GET /")) rfl

/-! ## The `/echo/` route -/

theorem bytes_echo : bytes "/echo/" = [47, 101, 99, 104, 111, 47] := by decide

theorem bytes_slash : bytes "/" = [47] := by decide

theorem bytes_userAgent :
    bytes "/user-agent" = [47, 117, 115, 101, 114, 45, 97, 103, 101, 110, 116] := by decide

theorem MatchPath_echo (s : Bytes) (hs : (10 : UInt8) ∉ s) :
    MatchPath echoPattern (bytes "/echo/" ++ s) = (true, [bytes "/echo/" ++ s, s]) := by
  have hp : (bytes "/echo/").isPrefixOf (bytes "/echo/" ++ s) = true :=
    List.isPrefixOf_iff_prefix.mpr (List.prefix_append _ _)
  simp [MatchPath, echoPattern, hp, hs]

/-- C10: for every text `s` without a line feed and every method, version,
headers and body of the request, the route selection on the target "/echo/"
followed by `s` gives status "HTTP/1.1 200 OK", `Content-Type` "text/plain"
as the only header and the body `s`, byte for byte; the filesystem is not
touched. -/
theorem selectRoute_echo {σ : Type} (F : FileSystem σ) (fs : σ) (dir : Bytes)
    (method version body : Bytes) (headers : Headers) (s : Bytes)
    (hs : (10 : UInt8) ∉ s) :
    selectRoute F fs dir
        { Method := method, Target := bytes "/echo/" ++ s, HttpVersion := version,
          Headers := headers, Body := body } =
      ({ Status := bytes "HTTP/1.1 200 OK",
         Headers := (∅ : Headers).insert (bytes "Content-Type") (bytes "text/plain"),
         Body := s }, fs) := by
  have h1 : bytes "/echo/" ++ s ≠ bytes "/" := by
    rw [bytes_echo, bytes_slash]; simp
  have h2 : bytes "/echo/" ++ s ≠ bytes "/user-agent" := by
    rw [bytes_echo, bytes_userAgent]; simp
  simp [selectRoute, h1, h2, MatchPath_echo s hs, notFound]

theorem selectRoute_echo_witness :
    (10 : UInt8) ∉ bytes "hello%20world" ∧
    bytes "/echo/" ++ bytes "hello%20world" = bytes "/echo/hello%20world" ∧
    selectRoute noFiles () []
        { Method := bytes "GET", Target := bytes "/echo/" ++ bytes "hello%20world",
          HttpVersion := bytes "HTTP/1.1", Headers := ∅, Body := [] } =
      ({ Status := bytes "HTTP/1.1 200 OK",
         Headers := (∅ : Headers).insert (bytes "Content-Type") (bytes "text/plain"),
         Body := bytes "hello%20world" }, ()) :=
  ⟨by decide, by decide,
    selectRoute_echo noFiles () [] _ _ _ _ (bytes "hello%20world") (by decide)⟩

/-! ## `TrimSpace` on text with plain ends -/

theorem asciiSpace_lt (c : UInt8) (h : asciiSpace c = true) : ¬ RuneSelf ≤ c.toNat := by
  simp only [asciiSpace, Bool.or_eq_true, decide_eq_true_eq] at h
  rcases h with ((((rfl | rfl) | rfl) | rfl) | rfl) | rfl <;> decide

theorem plainByte_lt (c : UInt8) (h : plainByte c = true) : ¬ RuneSelf ≤ c.toNat := by
  simp only [plainByte, Bool.and_eq_true, decide_eq_true_eq] at h
  simp only [RuneSelf]; omega

theorem plainByte_not_space (c : UInt8) (h : plainByte c = true) : asciiSpace c = false := by
  simp only [plainByte, Bool.and_eq_true, Bool.not_eq_true'] at h
  exact h.2

theorem TrimSpace_space_cons (w : UInt8) (s : Bytes) (h : asciiSpace w = true) :
    TrimSpace (w :: s) = TrimSpace s := by
  simp [TrimSpace, asciiSpace_lt w h, h]

theorem TrimSpace_spaces_append (ws s : Bytes) (h : ∀ w ∈ ws, asciiSpace w = true) :
    TrimSpace (ws ++ s) = TrimSpace s := by
  induction ws with
  | nil => rfl
  | cons w ws ih =>
    rw [List.cons_append, TrimSpace_space_cons w _ (h w (by simp))]
    exact ih fun x hx => h x (List.mem_cons_of_mem _ hx)

theorem trimSpaceRight_spaces_append (ws r : Bytes) (h : ∀ w ∈ ws, asciiSpace w = true) :
    trimSpaceRight (ws ++ r) = trimSpaceRight r := by
  induction ws with
  | nil => rfl
  | cons w ws ih =>
    have hw := h w (by simp)
    rw [List.cons_append]
    simp only [trimSpaceRight, asciiSpace_lt w hw, hw, if_true, if_false]
    exact ih fun x hx => h x (List.mem_cons_of_mem _ hx)

theorem trimSpaceRight_plain (d : UInt8) (r : Bytes) (h : plainByte d = true) :
    trimSpaceRight (d :: r) = (d :: r).reverse := by
  simp [trimSpaceRight, plainByte_lt d h, plainByte_not_space d h]

/-- The function `TrimSpace` removes ASCII spaces around a text with plain ends and
nothing else. -/
theorem TrimSpace_plainEnds (ws1 s ws2 : Bytes) (hs : plainEnds s = true)
    (h1 : ∀ w ∈ ws1, asciiSpace w = true) (h2 : ∀ w ∈ ws2, asciiSpace w = true) :
    TrimSpace (ws1 ++ s ++ ws2) = s := by
  rw [List.append_assoc, TrimSpace_spaces_append ws1 _ h1]
  simp only [plainEnds, Bool.and_eq_true] at hs
  obtain ⟨hhead, hlast⟩ := hs
  cases s with
  | nil => simp [plainByte, asciiSpace] at hhead
  | cons c cs =>
    simp only [List.headD_cons] at hhead
    have hrev : ∃ d r, (c :: cs).reverse = d :: r ∧ plainByte d = true := by
      cases hr : (c :: cs).reverse with
      | nil => simp at hr
      | cons d r =>
        rw [hr] at hlast
        exact ⟨d, r, rfl, by simpa using hlast⟩
    obtain ⟨d, r, hr, hd⟩ := hrev
    have h2r : ∀ w ∈ ws2.reverse, asciiSpace w = true := fun w hw => h2 w (List.mem_reverse.mp hw)
    rw [List.cons_append]
    simp only [TrimSpace, plainByte_lt c hhead, plainByte_not_space c hhead, if_false,
      Bool.false_eq_true]
    rw [← List.cons_append, List.reverse_append, trimSpaceRight_spaces_append _ _ h2r, hr,
      trimSpaceRight_plain d r hd, ← hr, List.reverse_reverse]

/-! ## `TrimSpace` keeps bytes of its argument only -/

theorem trimLeftSpaceAux_subset (s : Bytes) : ∀ (skip : Nat) (x : UInt8),
    x ∈ trimLeftSpaceAux skip s → x ∈ s := by
  induction s with
  | nil => intro skip x hx; cases skip <;> simp [trimLeftSpaceAux] at hx
  | cons c cs ih =>
    intro skip x hx
    cases skip with
    | zero =>
      simp only [trimLeftSpaceAux] at hx
      split_ifs at hx
      · exact List.mem_cons_of_mem _ (ih _ x hx)
      · exact hx
    | succ k =>
      simp only [trimLeftSpaceAux] at hx
      exact List.mem_cons_of_mem _ (ih _ x hx)

theorem TrimRightFunc_subset (s : Bytes) (x : UInt8) (hx : x ∈ TrimRightFunc s) : x ∈ s := by
  unfold TrimRightFunc at hx
  simp only at hx
  split_ifs at hx <;> exact List.mem_of_mem_take hx

theorem TrimFunc_subset (s : Bytes) (x : UInt8) (hx : x ∈ TrimFunc s) : x ∈ s :=
  trimLeftSpaceAux_subset s 0 x (TrimRightFunc_subset _ x hx)

theorem trimSpaceRight_subset (r : Bytes) : ∀ x : UInt8, x ∈ trimSpaceRight r → x ∈ r := by
  induction r with
  | nil => intro x hx; simp [trimSpaceRight] at hx
  | cons c cs ih =>
    intro x hx
    simp only [trimSpaceRight] at hx
    split_ifs at hx
    · exact List.mem_reverse.mp (TrimRightFunc_subset _ x hx)
    · exact List.mem_cons_of_mem _ (ih x hx)
    · exact List.mem_reverse.mp hx

theorem TrimSpace_subset (s : Bytes) : ∀ x : UInt8, x ∈ TrimSpace s → x ∈ s := by
  induction s with
  | nil => intro x hx; simp [TrimSpace] at hx
  | cons c cs ih =>
    intro x hx
    simp only [TrimSpace] at hx
    split_ifs at hx
    · exact TrimFunc_subset _ x hx
    · exact List.mem_cons_of_mem _ (ih x hx)
    · exact List.mem_reverse.mp (trimSpaceRight_subset _ x hx)

/-! ## Splitting at the first colon -/

theorem bytes_colon : bytes ":" = [58] := by decide

theorem genSplit_colon_not_mem (k : Nat) (s : Bytes) : ∀ acc : Bytes, (58 : UInt8) ∉ s →
    genSplit [58] k 0 s acc = [acc.reverse ++ s] := by
  induction s with
  | nil => intro acc _; cases k <;> simp [genSplit]
  | cons c cs ih =>
    intro acc h
    have hc : c ≠ 58 := fun e => h (by simp [e])
    have hcs : (58 : UInt8) ∉ cs := fun e => h (List.mem_cons_of_mem _ e)
    cases k with
    | zero => simp [genSplit]
    | succ k =>
      have hp : List.isPrefixOf [58] (c :: cs) = false := by
        simp [List.isPrefixOf, Ne.symm hc]
      simp only [genSplit, hp, Bool.false_eq_true, if_false]
      rw [ih _ hcs]
      simp

theorem genSplit_colon_first (k : Nat) (pre rest : Bytes) : ∀ acc : Bytes, (58 : UInt8) ∉ pre →
    genSplit [58] (k + 1) 0 (pre ++ 58 :: rest) acc =
      (acc.reverse ++ pre) :: genSplit [58] k 0 rest [] := by
  induction pre with
  | nil =>
    intro acc _
    simp [genSplit, List.isPrefixOf]
  | cons c cs ih =>
    intro acc h
    have hc : c ≠ 58 := fun e => h (by simp [e])
    have hcs : (58 : UInt8) ∉ cs := fun e => h (List.mem_cons_of_mem _ e)
    have hp : List.isPrefixOf [58] (c :: (cs ++ 58 :: rest)) = false := by
      simp [List.isPrefixOf, Ne.symm hc]
    rw [List.cons_append]
    simp only [genSplit, hp, Bool.false_eq_true, if_false]
    rw [ih _ hcs]
    simp

theorem genSplit_zero (s : Bytes) : genSplit [58] 0 0 s [] = [s] := by
  cases s <;> simp [genSplit]

/-- A line with no colon is not split. -/
theorem SplitN_colon_not_mem (s : Bytes) (h : (58 : UInt8) ∉ s) :
    SplitN s (bytes ":") 2 = [s] := by
  have := genSplit_colon_not_mem 1 s [] h
  simpa [SplitN, bytes_colon] using this

/-- A line is split at its first colon only. -/
theorem SplitN_colon_first (pre rest : Bytes) (h : (58 : UInt8) ∉ pre) :
    SplitN (pre ++ 58 :: rest) (bytes ":") 2 = [pre, rest] := by
  have := genSplit_colon_first 0 pre rest [] h
  rw [genSplit_zero] at this
  simpa [SplitN, bytes_colon] using this

theorem setHeader_of_no_colon (h : Headers) (l : Bytes) (hl : (58 : UInt8) ∉ l) :
    setHeader h l = h := by
  simp [setHeader, SplitN_colon_not_mem l hl]

theorem setHeader_of_colon (h : Headers) (pre rest : Bytes) (hp : (58 : UInt8) ∉ pre) :
    setHeader h (pre ++ 58 :: rest) = h.insert (TrimSpace pre) (TrimSpace rest) := by
  simp [setHeader, SplitN_colon_first pre rest hp]

/-! ## The header loop, line by line -/

/-- At the end of input the loop ends and nothing is left for the body. -/
theorem parseHeaders_eof (fuel : Nat) (tail : Bytes) (h : Headers)
    (ht : (10 : UInt8) ∉ tail) : parseHeaders (fuel + 1) tail h = (h, []) := by
  simp [parseHeaders, ReadString_of_not_mem 10 tail ht]

/-- A blank line ends the loop; what follows it is left for the body. -/
theorem parseHeaders_blank (fuel : Nat) (blank rest : Bytes) (h : Headers)
    (hb : (10 : UInt8) ∉ blank) (hblank : TrimSpace (blank ++ [10]) = []) :
    parseHeaders (fuel + 1) (blank ++ 10 :: rest) h = (h, rest) := by
  simp [parseHeaders, ReadString_append 10 blank rest hb, hblank]

/-- A line that is not blank is handed to `setHeader` and the loop goes on. -/
theorem parseHeaders_line (fuel : Nat) (c rest : Bytes) (h : Headers)
    (hc : (10 : UInt8) ∉ c) (hnb : TrimSpace (c ++ [10]) ≠ []) :
    parseHeaders (fuel + 1) (c ++ 10 :: rest) h =
      parseHeaders fuel rest (setHeader h (TrimSpace (c ++ [10]))) := by
  simp only [parseHeaders, ReadString_append 10 c rest hc, Bool.true_eq_false, if_false, hnb,
    setHeader]
  split <;> rfl

theorem parseHeaders_lines (hs : List Bytes) : ∀ (fuel : Nat) (rest : Bytes) (h : Headers),
    (∀ c ∈ hs, (10 : UInt8) ∉ c ∧ TrimSpace (c ++ [10]) ≠ []) →
    parseHeaders (fuel + hs.length) (lines hs ++ rest) h =
      parseHeaders fuel rest (headersOfLines h hs) := by
  induction hs with
  | nil => intro fuel rest h _; simp [lines, headersOfLines]
  | cons c cs ih =>
    intro fuel rest h hall
    have hc := hall c (by simp)
    have hcs : ∀ x ∈ cs, (10 : UInt8) ∉ x ∧ TrimSpace (x ++ [10]) ≠ [] :=
      fun x hx => hall x (List.mem_cons_of_mem _ hx)
    have e1 : lines (c :: cs) ++ rest = c ++ 10 :: (lines cs ++ rest) := by
      simp [lines]
    have e2 : fuel + (c :: cs).length = (fuel + cs.length) + 1 := by
      simp; omega
    rw [e1, e2, parseHeaders_line _ c _ h hc.1 hc.2, ih fuel rest _ hcs]
    rfl

theorem length_le_lines (hs : List Bytes) : hs.length ≤ (lines hs).length := by
  induction hs with
  | nil => simp [lines]
  | cons c cs ih =>
    simp only [lines, List.map_cons, List.flatten_cons, List.length_append, List.length_cons,
      List.length_nil] at ih ⊢
    omega

/-- The header loop as `ParseRequest` runs it, on lines that are not blank
followed by `rest`: the fuel covers the lines and leaves at least one turn. -/
theorem parseHeaders_lines_full (hs : List Bytes) (rest : Bytes) (h : Headers)
    (hall : ∀ c ∈ hs, (10 : UInt8) ∉ c ∧ TrimSpace (c ++ [10]) ≠ []) :
    ∃ fuel, parseHeaders ((lines hs ++ rest).length + 1) (lines hs ++ rest) h =
      parseHeaders (fuel + 1) rest (headersOfLines h hs) := by
  refine ⟨(lines hs ++ rest).length - hs.length, ?_⟩
  have hle := length_le_lines hs
  have e : (lines hs ++ rest).length + 1 = ((lines hs ++ rest).length - hs.length + 1) + hs.length := by
    simp only [List.length_append]; omega
  rw [e, parseHeaders_lines hs _ rest h hall]

/-- The request `ParseRequest` returns for a request line of three tokens. -/
theorem ParseRequest_of_tokens (reqLine rest method target version : Bytes)
    (hline : (10 : UInt8) ∉ reqLine)
    (htok : Split (TrimSpace (reqLine ++ [10])) (bytes " ") = [method, target, version]) :
    ParseRequest (reqLine ++ 10 :: rest) =
      .ok { Method := method, Target := target, HttpVersion := version,
            Headers := (parseHeaders (rest.length + 1) rest ∅).1,
            Body := (parseHeaders (rest.length + 1) rest ∅).2 } := by
  unfold ParseRequest
  simp only [ReadString_append 10 reqLine rest hline, Bool.true_eq_false, if_false, htok]

/-- Every buffer is a sequence of lines ended by line feeds, followed by
bytes with no line feed. -/
theorem exists_lines (r : Bytes) :
    ∃ (hs : List Bytes) (tail : Bytes), r = lines hs ++ tail ∧
      (∀ c ∈ hs, (10 : UInt8) ∉ c) ∧ (10 : UInt8) ∉ tail := by
  induction r with
  | nil => exact ⟨[], [], rfl, by simp, by simp⟩
  | cons b bs ih =>
    obtain ⟨hs, tail, he, hh, ht⟩ := ih
    by_cases hb : b = 10
    · refine ⟨[] :: hs, tail, ?_, ?_, ht⟩
      · simp [lines, he, hb]
      · intro c hc
        rcases List.mem_cons.mp hc with rfl | hc
        · simp
        · exact hh c hc
    · cases hs with
      | nil =>
        refine ⟨[], b :: tail, by simp [lines, he], by simp, ?_⟩
        simp only [List.mem_cons, not_or]
        exact ⟨Ne.symm hb, ht⟩
      | cons c cs =>
        refine ⟨(b :: c) :: cs, tail, by simp [lines, he], ?_, ht⟩
        intro x hx
        rcases List.mem_cons.mp hx with rfl | hx
        · simp only [List.mem_cons, not_or]
          exact ⟨Ne.symm hb, hh c (by simp)⟩
        · exact hh x (List.mem_cons_of_mem _ hx)

/-! ## The body -/

/-- C9: for every input buffer made of a request line of three tokens ended
by a line feed, then any number of header lines that are not blank, each
ended by a line feed, then a blank line, then bytes `b` of any kind,
`ParseRequest` returns a request whose `Body` is `b`; and when after the
request line there are only lines that are not blank, followed by bytes with
no line feed (so no blank line), the `Body` is empty. -/
theorem ParseRequest_body (reqLine method target version : Bytes) (hs : List Bytes)
    (blank b tail : Bytes)
    (hline : (10 : UInt8) ∉ reqLine)
    (htok : Split (TrimSpace (reqLine ++ [10])) (bytes " ") = [method, target, version])
    (hall : ∀ c ∈ hs, (10 : UInt8) ∉ c ∧ TrimSpace (c ++ [10]) ≠ [])
    (hb : (10 : UInt8) ∉ blank) (hblank : TrimSpace (blank ++ [10]) = [])
    (ht : (10 : UInt8) ∉ tail) :
    (∃ req, ParseRequest (reqLine ++ 10 :: (lines hs ++ (blank ++ 10 :: b))) = .ok req ∧
      req.Body = b) ∧
    (∃ req, ParseRequest (reqLine ++ 10 :: (lines hs ++ tail)) = .ok req ∧ req.Body = []) := by
  constructor
  · obtain ⟨fuel, hf⟩ := parseHeaders_lines_full hs (blank ++ 10 :: b) ∅ hall
    refine ⟨_, ParseRequest_of_tokens reqLine _ method target version hline htok, ?_⟩
    show (parseHeaders _ _ ∅).2 = b
    rw [hf, parseHeaders_blank fuel blank b _ hb hblank]
  · obtain ⟨fuel, hf⟩ := parseHeaders_lines_full hs tail ∅ hall
    refine ⟨_, ParseRequest_of_tokens reqLine _ method target version hline htok, ?_⟩
    show (parseHeaders _ _ ∅).2 = []
    rw [hf, parseHeaders_eof fuel tail _ ht]

/-! ## A malformed header line -/

theorem headersOfLines_append (h : Headers) (hs₁ hs₂ : List Bytes) :
    headersOfLines h (hs₁ ++ hs₂) = headersOfLines (headersOfLines h hs₁) hs₂ := by
  simp [headersOfLines, List.foldl_append]

theorem headersOfLines_pair (h : Headers) (x y : Bytes) :
    headersOfLines h [x, y] =
      setHeader (setHeader h (TrimSpace (x ++ [10]))) (TrimSpace (y ++ [10])) := rfl

theorem plainEnds_ne_nil (s : Bytes) (h : plainEnds s = true) : s ≠ [] := by
  rintro rfl
  simp [plainEnds, plainByte, asciiSpace] at h

/-- The line "Name: Value" followed by CR, trimmed, is "Name: Value". -/
theorem TrimSpace_header (name value : Bytes) (hn : plainEnds name = true)
    (hv : plainEnds value = true) :
    TrimSpace (name ++ bytes ": " ++ value ++ [13] ++ [10]) = name ++ 58 :: 32 :: value := by
  have hends : plainEnds (name ++ 58 :: 32 :: value) = true := by
    simp only [plainEnds, Bool.and_eq_true] at hn hv ⊢
    cases name with
    | nil => simp [plainByte, asciiSpace] at hn
    | cons c cs =>
      refine ⟨by simpa using hn.1, ?_⟩
      cases hr : value.reverse with
      | nil =>
        rw [hr] at hv
        simp [plainByte, asciiSpace] at hv
      | cons d r =>
        rw [hr] at hv
        have : (c :: cs ++ 58 :: 32 :: value).reverse = d :: (r ++ 32 :: 58 :: (c :: cs).reverse) := by
          simp [hr]
        rw [this]
        simpa using hv.2
  have h := TrimSpace_plainEnds [] (name ++ 58 :: 32 :: value) [13, 10] hends (by simp)
    (by intro w hw; simp at hw; rcases hw with rfl | rfl <;> decide)
  have e : name ++ bytes ": " ++ value ++ [13] ++ [10] =
      [] ++ (name ++ 58 :: 32 :: value) ++ [13, 10] := by
    have : bytes ": " = [58, 32] := by decide
    simp [this]
  rw [e, h]

/-- What the line "Name: Value" does to the headers. -/
theorem setHeader_header (h : Headers) (name value : Bytes) (hn : plainEnds name = true)
    (hv : plainEnds value = true) (hcolon : (58 : UInt8) ∉ name) :
    setHeader h (TrimSpace (name ++ bytes ": " ++ value ++ [13] ++ [10])) =
      h.insert name value := by
  rw [TrimSpace_header name value hn hv, setHeader_of_colon h name (32 :: value) hcolon]
  have e1 : TrimSpace name = name := by
    simpa using TrimSpace_plainEnds [] name [] hn (by simp) (by simp)
  have e2 : TrimSpace (32 :: value) = value := by
    simpa using TrimSpace_plainEnds [32] value [] hv
      (by intro w hw; simp at hw; subst hw; decide) (by simp)
  rw [e1, e2]

/-- C8: for every request buffer with a request line of three tokens, then
header lines that are not blank, among them a line `bad` with no colon
followed by the line "Name: Value" (`name` without colon, `name` and `value`
with no space around them), then a blank line and any bytes, `ParseRequest`
succeeds; the headers it returns are those collected from the lines before
`bad` with `name` set to `value`, so nothing in them derives from `bad` (they
are the same for every `bad`); and they map `name` to `value`. -/
theorem ParseRequest_skips_malformed_header (reqLine method target version : Bytes)
    (pre : List Bytes) (bad name value blank b : Bytes)
    (hline : (10 : UInt8) ∉ reqLine)
    (htok : Split (TrimSpace (reqLine ++ [10])) (bytes " ") = [method, target, version])
    (hpre : ∀ c ∈ pre, (10 : UInt8) ∉ c ∧ TrimSpace (c ++ [10]) ≠ [])
    (hbad : (10 : UInt8) ∉ bad) (hbadColon : (58 : UInt8) ∉ bad)
    (hbadBlank : TrimSpace (bad ++ [10]) ≠ [])
    (hn : plainEnds name = true) (hnColon : (58 : UInt8) ∉ name) (hnLine : (10 : UInt8) ∉ name)
    (hv : plainEnds value = true) (hvLine : (10 : UInt8) ∉ value)
    (hb : (10 : UInt8) ∉ blank) (hblank : TrimSpace (blank ++ [10]) = []) :
    ∃ req,
      ParseRequest (reqLine ++ 10 :: (lines pre ++ (bad ++ 10 ::
        (name ++ bytes ": " ++ value ++ CLRF ++ (blank ++ 10 :: b))))) = .ok req ∧
      req.Headers = (headersOfLines ∅ pre).insert name value ∧
      req.Headers.lookup name = some value ∧
      req.Body = b := by
  -- the header lines, without their line feeds
  have hgoodTrim := TrimSpace_header name value hn hv
  have hgoodLine : (10 : UInt8) ∉ name ++ bytes ": " ++ value ++ [13] := by
    have : bytes ": " = [58, 32] := by decide
    simp [this, hnLine, hvLine]
  have hgoodBlank : TrimSpace (name ++ bytes ": " ++ value ++ [13] ++ [10]) ≠ [] := by
    rw [hgoodTrim]
    have := plainEnds_ne_nil name hn
    simp [this]
  have hall : ∀ c ∈ pre ++ [bad, name ++ bytes ": " ++ value ++ [13]],
      (10 : UInt8) ∉ c ∧ TrimSpace (c ++ [10]) ≠ [] := by
    intro c hc
    rcases List.mem_append.mp hc with hc | hc
    · exact hpre c hc
    · simp only [List.mem_cons, List.mem_singleton, List.not_mem_nil, or_false] at hc
      rcases hc with rfl | rfl
      · exact ⟨hbad, hbadBlank⟩
      · exact ⟨hgoodLine, hgoodBlank⟩
  have hbuf : lines pre ++ (bad ++ 10 ::
      (name ++ bytes ": " ++ value ++ CLRF ++ (blank ++ 10 :: b))) =
      lines (pre ++ [bad, name ++ bytes ": " ++ value ++ [13]]) ++ (blank ++ 10 :: b) := by
    simp [lines, CLRF]
  have hheaders : headersOfLines ∅ (pre ++ [bad, name ++ bytes ": " ++ value ++ [13]]) =
      (headersOfLines ∅ pre).insert name value := by
    have hbadTrim : (58 : UInt8) ∉ TrimSpace (bad ++ [10]) := by
      intro hm
      have hm2 := TrimSpace_subset (bad ++ [10]) 58 hm
      simp only [List.mem_append, List.mem_singleton] at hm2
      rcases hm2 with hm2 | hm2
      · exact hbadColon hm2
      · exact absurd hm2 (by decide)
    rw [headersOfLines_append, headersOfLines_pair, setHeader_of_no_colon _ _ hbadTrim,
      setHeader_header _ name value hn hv hnColon]
  obtain ⟨fuel, hf⟩ := parseHeaders_lines_full _ (blank ++ 10 :: b) ∅ hall
  rw [hbuf]
  refine ⟨_, ParseRequest_of_tokens reqLine _ method target version hline htok, ?_, ?_, ?_⟩
  · show (parseHeaders _ _ ∅).1 = _
    rw [hf, parseHeaders_blank fuel blank b _ hb hblank, hheaders]
  · show (parseHeaders _ _ ∅).1.lookup name = _
    rw [hf, parseHeaders_blank fuel blank b _ hb hblank, hheaders]
    exact AList.lookup_insert _
  · show (parseHeaders _ _ ∅).2 = b
    rw [hf, parseHeaders_blank fuel blank b _ hb hblank]

theorem ParseRequest_body_witness :
    (∀ c ∈ [bytes "Host: x\r", bytes "no colon here\r"],
      (10 : UInt8) ∉ c ∧ TrimSpace (c ++ [10]) ≠ []) ∧
    TrimSpace ([13] ++ [10]) = [] ∧
    (∃ req, ParseRequest (bytes "POST /files/a HTTP/1.1\r" ++ 10 ::
        (lines [bytes "Host: x\r", bytes "no colon here\r"] ++
          ([13] ++ 10 :: bytes "a\r\n\r\nb\n"))) = .ok req ∧
      req.Body = bytes "a\r\n\r\nb\n") ∧
    (∃ req, ParseRequest (bytes "POST /files/a HTTP/1.1\r" ++ 10 ::
        (lines [bytes "Host: x\r", bytes "no colon here\r"] ++ bytes "X-Partial: 1")) = .ok req ∧
      req.Body = []) :=
  ⟨by decide, by decide,
    ParseRequest_body (bytes "POST /files/a HTTP/1.1\r") (bytes "POST") (bytes "/files/a")
      (bytes "HTTP/1.1") [bytes "Host: x\r", bytes "no colon here\r"] [13]
      (bytes "a\r\n\r\nb\n") (bytes "X-Partial: 1")
      (by decide) (by decide) (by decide) (by decide) (by decide) (by decide)⟩

theorem ParseRequest_skips_malformed_header_witness :
    (58 : UInt8) ∉ bytes "no colon here\r" ∧
    plainEnds (bytes "Host") = true ∧ plainEnds (bytes "example.org:8080") = true ∧
    ∃ req,
      ParseRequest (bytes "GET / HTTP/1.1\r" ++ 10 :: (lines [bytes "Accept: */*\r"] ++
        (bytes "no colon here\r" ++ 10 ::
          (bytes "Host" ++ bytes ": " ++ bytes "example.org:8080" ++ CLRF ++
            ([13] ++ 10 :: bytes "body"))))) = .ok req ∧
      req.Headers = (headersOfLines ∅ [bytes "Accept: */*\r"]).insert (bytes "Host")
        (bytes "example.org:8080") ∧
      req.Headers.lookup (bytes "Host") = some (bytes "example.org:8080") ∧
      req.Body = bytes "body" :=
  ⟨by decide, by decide, by decide,
    ParseRequest_skips_malformed_header (bytes "GET / HTTP/1.1\r") (bytes "GET") (bytes "/")
      (bytes "HTTP/1.1") [bytes "Accept: */*\r"] (bytes "no colon here\r") (bytes "Host")
      (bytes "example.org:8080") [13] (bytes "body")
      (by decide) (by decide) (by decide) (by decide) (by decide) (by decide) (by decide)
      (by decide) (by decide) (by decide) (by decide) (by decide) (by decide)⟩

theorem createResponse_default_content_length_witness :
    (∅ : Headers).lookup (bytes "Content-Length") = none ∧
    (∃ before after : List Entry,
      CreateResponse listOrder ⟨bytes "HTTP/1.1 200 OK", ∅, bytes "abc"⟩ =
        bytes "HTTP/1.1 200 OK" ++ CLRF ++ (before.map headerLine).flatten ++
          (bytes "Content-Length: " ++ Itoa (bytes "abc").length ++ CLRF) ++
          (after.map headerLine).flatten ++ CLRF ++ bytes "abc") ∧
    (bytes "abc" = [] → Itoa (bytes "abc").length = bytes "0") :=
  ⟨by decide, createResponse_default_content_length listOrder (bytes "HTTP/1.1 200 OK") ∅
    (bytes "abc") (by decide)⟩

/-! ## The `/files/` routes -/

theorem bytes_files : bytes "/files/" = [47, 102, 105, 108, 101, 115, 47] := by decide

theorem MatchPath_files (n : Bytes) (hn : (10 : UInt8) ∉ n) :
    MatchPath filePattern (bytes "/files/" ++ n) = (true, [bytes "/files/" ++ n, n]) := by
  have hp : (bytes "/files/").isPrefixOf (bytes "/files/" ++ n) = true :=
    List.isPrefixOf_iff_prefix.mpr (List.prefix_append _ _)
  simp [MatchPath, filePattern, hp, hn]

theorem MatchPath_echo_files (n : Bytes) :
    MatchPath echoPattern (bytes "/files/" ++ n) = (false, []) := by
  have hp : (bytes "/echo/").isPrefixOf (bytes "/files/" ++ n) = false := by
    rw [bytes_echo, bytes_files]
    simp [List.isPrefixOf]
  simp [MatchPath, echoPattern, hp]

theorem files_ne_slash (n : Bytes) : bytes "/files/" ++ n ≠ bytes "/" := by
  rw [bytes_files, bytes_slash]; simp

theorem files_ne_userAgent (n : Bytes) : bytes "/files/" ++ n ≠ bytes "/user-agent" := by
  rw [bytes_files, bytes_userAgent]; simp

theorem bytes_get_ne_post : bytes "GET" ≠ bytes "POST" := by decide

/-- The route selection on a `/files/` target, by method. -/
theorem selectRoute_files {σ : Type} (F : FileSystem σ) (fs : σ) (dir : Bytes)
    (method version body : Bytes) (headers : Headers) (n : Bytes) (hn : (10 : UInt8) ∉ n) :
    selectRoute F fs dir
        { Method := method, Target := bytes "/files/" ++ n, HttpVersion := version,
          Headers := headers, Body := body } =
      if method = bytes "GET" then
        match F.ReadFile fs (dir ++ n) with
        | none =>
          ({ Status := bytes "HTTP/1.1 404 Not Found",
             Headers := (∅ : Headers).insert (bytes "Content-Type") (bytes "text/plain"),
             Body := bytes "Not Found" }, fs)
        | some fb =>
          ({ Status := bytes "HTTP/1.1 200 OK",
             Headers := (∅ : Headers).insert (bytes "Content-Type")
               (bytes "application/octet-stream"),
             Body := fb }, fs)
      else if method = bytes "POST" then
        if (F.WriteFile fs (dir ++ n) body).2 = false then
          ({ notFound with Status := bytes "HTTP/1.1 500 Server Error" },
            (F.WriteFile fs (dir ++ n) body).1)
        else
          ({ Status := bytes "HTTP/1.1 201 Created",
             Headers := (∅ : Headers).insert (bytes "Content-Type")
               (bytes "application/octet-stream"),
             Body := [] }, (F.WriteFile fs (dir ++ n) body).1)
      else (notFound, fs) := by
  simp only [selectRoute, files_ne_slash, files_ne_userAgent, MatchPath_echo_files,
    MatchPath_files n hn, if_false, Bool.false_eq_true, false_and, notFound]
  simp

/-- C11: for every served directory `dir` and file name `n` without line
feed, the route selection on method GET and target "/files/" followed by `n`
reads the file at the path `dir` followed by `n`; when the read gives bytes
`f` the response is "HTTP/1.1 200 OK", `Content-Type`
"application/octet-stream" and body `f`; when the read fails it is
"HTTP/1.1 404 Not Found", `Content-Type` "text/plain" and body "Not Found".
The filesystem is left as it was. -/
theorem selectRoute_files_get {σ : Type} (F : FileSystem σ) (fs : σ) (dir : Bytes)
    (version body : Bytes) (headers : Headers) (n : Bytes) (hn : (10 : UInt8) ∉ n) :
    (∀ f, F.ReadFile fs (dir ++ n) = some f →
      selectRoute F fs dir
          { Method := bytes "GET", Target := bytes "/files/" ++ n, HttpVersion := version,
            Headers := headers, Body := body } =
        ({ Status := bytes "HTTP/1.1 200 OK",
           Headers := (∅ : Headers).insert (bytes "Content-Type")
             (bytes "application/octet-stream"),
           Body := f }, fs)) ∧
    (F.ReadFile fs (dir ++ n) = none →
      selectRoute F fs dir
          { Method := bytes "GET", Target := bytes "/files/" ++ n, HttpVersion := version,
            Headers := headers, Body := body } =
        ({ Status := bytes "HTTP/1.1 404 Not Found",
           Headers := (∅ : Headers).insert (bytes "Content-Type") (bytes "text/plain"),
           Body := bytes "Not Found" }, fs)) := by
  constructor
  · intro f hf
    rw [selectRoute_files F fs dir _ version body headers n hn]
    simp [hf]
  · intro hf
    rw [selectRoute_files F fs dir _ version body headers n hn]
    simp [hf]

theorem selectRoute_files_get_witness :
    (10 : UInt8) ∉ bytes "report.txt" ∧
    selectRoute mapFS
        (fun q => if q = bytes "/srv/report.txt" then some (bytes "data") else none)
        (bytes "/srv/")
        { Method := bytes "GET", Target := bytes "/files/" ++ bytes "report.txt",
          HttpVersion := bytes "HTTP/1.1", Headers := ∅, Body := [] } =
      ({ Status := bytes "HTTP/1.1 200 OK",
         Headers := (∅ : Headers).insert (bytes "Content-Type")
           (bytes "application/octet-stream"),
         Body := bytes "data" },
        fun q => if q = bytes "/srv/report.txt" then some (bytes "data") else none) ∧
    selectRoute mapFS emptyFiles (bytes "/srv/")
        { Method := bytes "GET", Target := bytes "/files/" ++ bytes "report.txt",
          HttpVersion := bytes "HTTP/1.1", Headers := ∅, Body := [] } =
      ({ Status := bytes "HTTP/1.1 404 Not Found",
         Headers := (∅ : Headers).insert (bytes "Content-Type") (bytes "text/plain"),
         Body := bytes "Not Found" }, emptyFiles) :=
  ⟨by decide,
    (selectRoute_files_get mapFS _ (bytes "/srv/") (bytes "HTTP/1.1") [] ∅
      (bytes "report.txt") (by decide)).1 (bytes "data") (by decide),
    (selectRoute_files_get mapFS emptyFiles (bytes "/srv/") (bytes "HTTP/1.1") [] ∅
      (bytes "report.txt") (by decide)).2 rfl⟩

/-- On the mapping filesystem, a POST to a `/files/` target followed by a GET
to the same target, for a file name without line feed. -/
theorem selectRoute_post_get_of_no_lf (fs : Bytes → Option Bytes) (dir n b : Bytes)
    (version₁ version₂ body₂ : Bytes) (headers₁ headers₂ : Headers)
    (hn : (10 : UInt8) ∉ n) :
    (selectRoute mapFS fs dir
        { Method := bytes "POST", Target := bytes "/files/" ++ n, HttpVersion := version₁,
          Headers := headers₁, Body := b }).1.Status = bytes "HTTP/1.1 201 Created" ∧
    (selectRoute mapFS fs dir
        { Method := bytes "POST", Target := bytes "/files/" ++ n, HttpVersion := version₁,
          Headers := headers₁, Body := b }).1.Body = [] ∧
    (selectRoute mapFS
        (selectRoute mapFS fs dir
          { Method := bytes "POST", Target := bytes "/files/" ++ n, HttpVersion := version₁,
            Headers := headers₁, Body := b }).2 dir
        { Method := bytes "GET", Target := bytes "/files/" ++ n, HttpVersion := version₂,
          Headers := headers₂, Body := body₂ }).1.Status = bytes "HTTP/1.1 200 OK" ∧
    (selectRoute mapFS
        (selectRoute mapFS fs dir
          { Method := bytes "POST", Target := bytes "/files/" ++ n, HttpVersion := version₁,
            Headers := headers₁, Body := b }).2 dir
        { Method := bytes "GET", Target := bytes "/files/" ++ n, HttpVersion := version₂,
          Headers := headers₂, Body := body₂ }).1.Body = b := by
  have hpost : selectRoute mapFS fs dir
      { Method := bytes "POST", Target := bytes "/files/" ++ n, HttpVersion := version₁,
        Headers := headers₁, Body := b } =
      ({ Status := bytes "HTTP/1.1 201 Created",
         Headers := (∅ : Headers).insert (bytes "Content-Type")
           (bytes "application/octet-stream"),
         Body := [] }, fun q => if q = dir ++ n then some b else fs q) := by
    rw [selectRoute_files mapFS fs dir _ version₁ b headers₁ n hn]
    simp [mapFS, Ne.symm bytes_get_ne_post]
  have hread : mapFS.ReadFile (fun q => if q = dir ++ n then some b else fs q) (dir ++ n) =
      some b := by
    simp [mapFS]
  have hget : selectRoute mapFS (fun q => if q = dir ++ n then some b else fs q) dir
      { Method := bytes "GET", Target := bytes "/files/" ++ n, HttpVersion := version₂,
        Headers := headers₂, Body := body₂ } =
      ({ Status := bytes "HTTP/1.1 200 OK",
         Headers := (∅ : Headers).insert (bytes "Content-Type")
           (bytes "application/octet-stream"),
         Body := b }, fun q => if q = dir ++ n then some b else fs q) := by
    rw [selectRoute_files mapFS _ dir _ version₂ body₂ headers₂ n hn]
    simp [hread]
  rw [hpost]
  exact ⟨rfl, rfl, by rw [hget], by rw [hget]⟩

/-- C13, the code at the failing input: on a filesystem where the write
fails, the route selection on POST "/files/new.txt" sets the status
"HTTP/1.1 500 Server Error" and nothing else, so the body stays the initial
"Not Found" (9 bytes) and is not empty; the response on the wire carries
`Content-Length: 9` and that body. -/
theorem selectRoute_files_post_failure_keeps_body :
    (noFiles.WriteFile () (bytes "/srv/" ++ bytes "new.txt") (bytes "abc")).2 = false ∧
    selectRoute noFiles () (bytes "/srv/")
        { Method := bytes "POST", Target := bytes "/files/new.txt",
          HttpVersion := bytes "HTTP/1.1", Headers := ∅, Body := bytes "abc" } =
      ({ Status := bytes "HTTP/1.1 500 Server Error", Headers := ∅,
         Body := bytes "Not Found" }, ()) ∧
    bytes "Not Found" ≠ [] ∧
    response frameCodec listOrder noFiles () (bytes "/srv/")
        { Method := bytes "POST", Target := bytes "/files/new.txt",
          HttpVersion := bytes "HTTP/1.1", Headers := ∅, Body := bytes "abc" } =
      bytes "HTTP/1.1 500 Server Error\r\nContent-Length: 9\r\n\r\nNot Found" := by
  refine ⟨rfl, ?_, by decide, ?_⟩
  · have h := selectRoute_files noFiles () (bytes "/srv/") (bytes "POST") (bytes "HTTP/1.1")
      (bytes "abc") ∅ (bytes "new.txt") (by decide)
    have e : bytes "/files/" ++ bytes "new.txt" = bytes "/files/new.txt" := by decide
    rw [e] at h
    rw [h]
    simp [noFiles, notFound, Ne.symm bytes_get_ne_post]
  · decide

/-- C14, the code at the failing input: the route selection on GET
"/unknown", which falls in none of the first four branches, gives status
"HTTP/1.1 404 Not Found" and body "Not Found" with an empty headers map: there
is no `Content-Type` entry, and the response on the wire has the header
`Content-Length` only. -/
theorem selectRoute_default_no_content_type :
    selectRoute noFiles () []
        { Method := bytes "GET", Target := bytes "/unknown",
          HttpVersion := bytes "HTTP/1.1", Headers := ∅, Body := [] } =
      ({ Status := bytes "HTTP/1.1 404 Not Found", Headers := ∅,
         Body := bytes "Not Found" }, ()) ∧
    (selectRoute noFiles () []
        { Method := bytes "GET", Target := bytes "/unknown",
          HttpVersion := bytes "HTTP/1.1", Headers := ∅, Body := [] }).1.Headers.lookup
      (bytes "Content-Type") = none ∧
    response frameCodec listOrder noFiles () []
        { Method := bytes "GET", Target := bytes "/unknown",
          HttpVersion := bytes "HTTP/1.1", Headers := ∅, Body := [] } =
      bytes "HTTP/1.1 404 Not Found\r\nContent-Length: 9\r\n\r\nNot Found" := by
  exact ⟨rfl, by decide, by decide⟩

/-! ## The `/user-agent` route -/

/-- C15: for every request whose target is "/user-agent", the route
selection gives "HTTP/1.1 200 OK", `Content-Type` "text/plain" as the only
header and as body the value stored under the exact name "User-Agent" in the
request headers, or the empty body when there is none; the filesystem is not
touched. -/
theorem selectRoute_userAgent {σ : Type} (F : FileSystem σ) (fs : σ) (dir : Bytes)
    (method version body : Bytes) (headers : Headers) :
    selectRoute F fs dir
        { Method := method, Target := bytes "/user-agent", HttpVersion := version,
          Headers := headers, Body := body } =
      ({ Status := bytes "HTTP/1.1 200 OK",
         Headers := (∅ : Headers).insert (bytes "Content-Type") (bytes "text/plain"),
         Body := (headers.lookup (bytes "User-Agent")).getD [] }, fs) ∧
    (∀ v, headers.lookup (bytes "User-Agent") = some v →
      (selectRoute F fs dir
        { Method := method, Target := bytes "/user-agent", HttpVersion := version,
          Headers := headers, Body := body }).1.Body = v) ∧
    (headers.lookup (bytes "User-Agent") = none →
      (selectRoute F fs dir
        { Method := method, Target := bytes "/user-agent", HttpVersion := version,
          Headers := headers, Body := body }).1.Body = []) := by
  have hne : bytes "/user-agent" ≠ bytes "/" := by decide
  have h : selectRoute F fs dir
      { Method := method, Target := bytes "/user-agent", HttpVersion := version,
        Headers := headers, Body := body } =
      ({ Status := bytes "HTTP/1.1 200 OK",
         Headers := (∅ : Headers).insert (bytes "Content-Type") (bytes "text/plain"),
         Body := (headers.lookup (bytes "User-Agent")).getD [] }, fs) := by
    simp [selectRoute, hne, notFound, Headers.get]
  refine ⟨h, ?_, ?_⟩
  · intro v hv; rw [h]; simp [hv]
  · intro hv; rw [h]; simp [hv]

theorem selectRoute_userAgent_witness :
    ((∅ : Headers).insert (bytes "User-Agent") (bytes "curl/8.0")).lookup
      (bytes "User-Agent") = some (bytes "curl/8.0") ∧
    (selectRoute noFiles () []
        { Method := bytes "GET", Target := bytes "/user-agent",
          HttpVersion := bytes "HTTP/1.1",
          Headers := (∅ : Headers).insert (bytes "User-Agent") (bytes "curl/8.0"),
          Body := [] }).1.Body = bytes "curl/8.0" ∧
    (selectRoute noFiles () []
        { Method := bytes "GET", Target := bytes "/user-agent",
          HttpVersion := bytes "HTTP/1.1",
          Headers := (∅ : Headers).insert (bytes "user-agent") (bytes "curl/8.0"),
          Body := [] }).1.Body = [] :=
  ⟨by decide,
    (selectRoute_userAgent noFiles () [] (bytes "GET") (bytes "HTTP/1.1") []
      ((∅ : Headers).insert (bytes "User-Agent") (bytes "curl/8.0"))).2.1 _ (by decide),
    (selectRoute_userAgent noFiles () [] (bytes "GET") (bytes "HTTP/1.1") []
      ((∅ : Headers).insert (bytes "user-agent") (bytes "curl/8.0"))).2.2 (by decide)⟩

/-! ## The layout of the response -/

/-- C16: for every status line, headers mapping and body, and whatever the
order of the `range` loop, the output of `CreateResponse` is the status line
and CRLF, then the line "Name: Value" and CRLF for each entry of a list `es`,
then CRLF, then the body as the last bytes. The list `es` holds each entry
once: it is a rearrangement of the supplied entries, with the entry
`Content-Length` of the decimal body length added when none was supplied and
nothing added otherwise, so a supplied `Content-Length` is written with its
own value; no name occurs twice. -/
theorem createResponse_layout (R : MapRange) (status : Bytes) (headers : Headers)
    (body : Bytes) :
    ∃ es : List Entry,
      CreateResponse R ⟨status, headers, body⟩ =
        status ++ CLRF ++ (es.map headerLine).flatten ++ CLRF ++ body ∧
      es.Perm (if headers.lookup (bytes "Content-Length") = none then
          ⟨bytes "Content-Length", Itoa body.length⟩ :: headers.entries
        else headers.entries) ∧
      es.NodupKeys ∧
      (∀ v, headers.lookup (bytes "Content-Length") = some v →
        (⟨bytes "Content-Length", v⟩ : Entry) ∈ es ∧
        ∀ w, (⟨bytes "Content-Length", w⟩ : Entry) ∈ es → w = v) ∧
      body <:+ CreateResponse R ⟨status, headers, body⟩ := by
  refine ⟨R.order (withContentLength ⟨status, headers, body⟩), rfl, ?_, ?_, ?_, ?_⟩
  · by_cases h : headers.lookup (bytes "Content-Length") = none
    · have hnot : bytes "Content-Length" ∉ headers := AList.lookup_eq_none.mp h
      have he : (withContentLength ⟨status, headers, body⟩).entries =
          ⟨bytes "Content-Length", Itoa body.length⟩ :: headers.entries := by
        simp only [withContentLength, h, if_true]
        exact AList.insert_entries_of_neg hnot
      rw [if_pos h, ← he]
      exact R.perm _
    · have he : withContentLength ⟨status, headers, body⟩ = headers := by
        simp only [withContentLength, h, if_false]
      rw [if_neg h, he]
      exact R.perm headers
  · exact (List.perm_nodupKeys (R.perm _)).mpr (AList.nodupKeys _)
  · intro v hv
    have hl := lookup_withContentLength_of_some ⟨status, headers, body⟩ v hv
    have hmem : (⟨bytes "Content-Length", v⟩ : Entry) ∈
        (withContentLength ⟨status, headers, body⟩).entries :=
      AList.mem_lookup_iff.mp (by simp [hl])
    refine ⟨(R.perm _).mem_iff.mpr hmem, ?_⟩
    intro w hw
    have hw2 : (⟨bytes "Content-Length", w⟩ : Entry) ∈
        (withContentLength ⟨status, headers, body⟩).entries := (R.perm _).mem_iff.mp hw
    have hw3 := AList.mem_lookup_iff.mpr hw2
    rw [hl] at hw3
    simpa using hw3.symm
  · exact ⟨_, rfl⟩

/-! ## An empty body and `Accept-Encoding: gzip` -/

/-- C19: for every request whose `Accept-Encoding` tokens include "gzip" and
every response parameters with an empty (or absent) body, `handleEncoding`
sets `Content-Encoding` to "gzip" and changes nothing else: the body is still
empty, the status is the same and `Content-Length` is as it was; so when the
parameters came without `Content-Length`, `CreateResponse` writes the line
"Content-Length: 0" and no body. -/
theorem handleEncoding_gzip_empty_body (G : GzipCodec) (R : MapRange) (req : Request)
    (resp : ResponseParam)
    (hg : bytes "gzip" ∈ Split (req.Headers.get (bytes "Accept-Encoding")) (bytes ", "))
    (hb : resp.Body = []) :
    handleEncoding G req resp =
      ({ resp with Headers := resp.Headers.insert (bytes "Content-Encoding") (bytes "gzip") },
        none) ∧
    (handleEncoding G req resp).1.Headers.lookup (bytes "Content-Encoding") =
      some (bytes "gzip") ∧
    (handleEncoding G req resp).1.Body = [] ∧
    (handleEncoding G req resp).1.Headers.lookup (bytes "Content-Length") =
      resp.Headers.lookup (bytes "Content-Length") ∧
    (resp.Headers.lookup (bytes "Content-Length") = none →
      ∃ before after : List Entry,
        CreateResponse R (handleEncoding G req resp).1 =
          resp.Status ++ CLRF ++ (before.map headerLine).flatten ++
            bytes "Content-Length: 0\r\n" ++ (after.map headerLine).flatten ++ CLRF) := by
  have h := handleEncoding_of_empty G req resp ((hasGzip_iff req).mpr hg) hb
  have hcl : (handleEncoding G req resp).1.Headers.lookup (bytes "Content-Length") =
      resp.Headers.lookup (bytes "Content-Length") := by
    rw [h]
    exact AList.lookup_insert_ne contentLength_ne_contentEncoding
  refine ⟨h, by rw [h]; exact AList.lookup_insert _, by rw [h]; exact hb, hcl, ?_⟩
  intro hnone
  obtain ⟨before, after, heq, -, -⟩ :=
    createResponse_split R (handleEncoding G req resp).1 (bytes "Content-Length")
      (Itoa (handleEncoding G req resp).1.Body.length)
      (lookup_withContentLength_of_none _ (by rw [hcl]; exact hnone))
  refine ⟨before, after, ?_⟩
  rw [heq, h]
  have e : bytes "Content-Length" ++ bytes ": " ++ Itoa (([] : Bytes).length : Int) ++ CLRF =
      bytes "Content-Length: 0\r\n" := by decide
  simp only [hb, e, List.append_nil]

theorem handleEncoding_gzip_empty_body_witness :
    bytes "gzip" ∈ Split (gzipRequest.Headers.get (bytes "Accept-Encoding")) (bytes ", ") ∧
    emptyOk.Body = [] ∧
    (handleEncoding frameCodec gzipRequest emptyOk).1.Body = [] ∧
    CreateResponse listOrder (handleEncoding frameCodec gzipRequest emptyOk).1 =
      bytes "HTTP/1.1 200 OK\r\nContent-Length: 0\r\nContent-Encoding: gzip\r\nContent-Type: text/plain\r\n\r\n" :=
  ⟨by decide, rfl,
    (handleEncoding_gzip_empty_body frameCodec listOrder gzipRequest emptyOk (by decide) rfl).2.2.1,
    by decide⟩

/-! ## Input without a line feed -/

/-- C20: for every input buffer with no line feed byte, `ParseRequest`
returns the error of the first read ("Failed to read request line"); so it
does for the empty buffer and for "GET / HTTP/1.1" without a line
terminator. -/
theorem ParseRequest_error_of_no_line_feed (rawRequest : Bytes)
    (h : (10 : UInt8) ∉ rawRequest) :
    ParseRequest rawRequest = .error .readRequestLine := by
  simp [ParseRequest, ReadString_of_not_mem 10 rawRequest h]

theorem ParseRequest_error_of_no_line_feed_witness :
    (10 : UInt8) ∉ bytes "GET / HTTP/1.1" ∧
    (Split (TrimSpace (bytes "GET / HTTP/1.1")) (bytes " ")).length = 3 ∧
    ParseRequest (bytes "GET / HTTP/1.1") = .error .readRequestLine ∧
    ParseRequest [] = .error .readRequestLine :=
  ⟨by decide, by decide, ParseRequest_error_of_no_line_feed (bytes "GET / HTTP/1.1") (by decide),
    rfl⟩

/-! ## A last header line without a line feed -/

/-- C18, as stated, fails: in the buffer "GET / HTTP/1.1\r\nHost: example.org"
the header section ends at the end of input and its last line
"Host: example.org" has no line feed; the line does split at its first colon,
yet `ParseRequest` returns a request with no header at all. -/
theorem ParseRequest_drops_unterminated_header :
    SplitN (TrimSpace (bytes "Host: example.org")) (bytes ":") 2 =
      [bytes "Host", bytes " example.org"] ∧
    ParseRequest (bytes "GET / HTTP/1.1\r\nHost: example.org") =
      .ok { Method := bytes "GET", Target := bytes "/", HttpVersion := bytes "HTTP/1.1",
            Headers := ∅, Body := [] } ∧
    (∅ : Headers).lookup (bytes "Host") = none :=
  ⟨by decide, rfl, rfl⟩

/-- C18, amended: for every input buffer with a request line of three tokens
whose header section ends at the end of input with no blank line, the last
header line "Name: Value" is split on its first colon and recorded when it
ends in a line feed; bytes after the last line feed (a last line that is not
terminated) are dropped: the headers are those of the terminated lines and
the body is empty. -/
theorem ParseRequest_headers_at_end_of_input (reqLine method target version : Bytes)
    (pre : List Bytes) (name value tail : Bytes)
    (hline : (10 : UInt8) ∉ reqLine)
    (htok : Split (TrimSpace (reqLine ++ [10])) (bytes " ") = [method, target, version])
    (hpre : ∀ c ∈ pre, (10 : UInt8) ∉ c ∧ TrimSpace (c ++ [10]) ≠ [])
    (hn : plainEnds name = true) (hnColon : (58 : UInt8) ∉ name) (hnLine : (10 : UInt8) ∉ name)
    (hv : plainEnds value = true) (hvLine : (10 : UInt8) ∉ value)
    (ht : (10 : UInt8) ∉ tail) :
    ∃ req,
      ParseRequest (reqLine ++ 10 :: (lines pre ++
        (name ++ bytes ": " ++ value ++ CLRF ++ tail))) = .ok req ∧
      req.Headers = (headersOfLines ∅ pre).insert name value ∧
      req.Headers.lookup name = some value ∧
      req.Body = [] := by
  have hgoodLine : (10 : UInt8) ∉ name ++ bytes ": " ++ value ++ [13] := by
    have : bytes ": " = [58, 32] := by decide
    simp [this, hnLine, hvLine]
  have hgoodBlank : TrimSpace (name ++ bytes ": " ++ value ++ [13] ++ [10]) ≠ [] := by
    rw [TrimSpace_header name value hn hv]
    have := plainEnds_ne_nil name hn
    simp [this]
  have hall : ∀ c ∈ pre ++ [name ++ bytes ": " ++ value ++ [13]],
      (10 : UInt8) ∉ c ∧ TrimSpace (c ++ [10]) ≠ [] := by
    intro c hc
    rcases List.mem_append.mp hc with hc | hc
    · exact hpre c hc
    · rw [List.mem_singleton] at hc
      subst hc
      exact ⟨hgoodLine, hgoodBlank⟩
  have hbuf : lines pre ++ (name ++ bytes ": " ++ value ++ CLRF ++ tail) =
      lines (pre ++ [name ++ bytes ": " ++ value ++ [13]]) ++ tail := by
    simp [lines, CLRF]
  have hheaders : headersOfLines ∅ (pre ++ [name ++ bytes ": " ++ value ++ [13]]) =
      (headersOfLines ∅ pre).insert name value := by
    rw [headersOfLines_append]
    exact setHeader_header _ name value hn hv hnColon
  obtain ⟨fuel, hf⟩ := parseHeaders_lines_full _ tail ∅ hall
  rw [hbuf]
  refine ⟨_, ParseRequest_of_tokens reqLine _ method target version hline htok, ?_, ?_, ?_⟩
  · show (parseHeaders _ _ ∅).1 = _
    rw [hf, parseHeaders_eof fuel tail _ ht, hheaders]
  · show (parseHeaders _ _ ∅).1.lookup name = _
    rw [hf, parseHeaders_eof fuel tail _ ht, hheaders]
    exact AList.lookup_insert _
  · show (parseHeaders _ _ ∅).2 = []
    rw [hf, parseHeaders_eof fuel tail _ ht]

theorem ParseRequest_headers_at_end_of_input_witness :
    (10 : UInt8) ∉ bytes "Accept: */*" ∧
    ∃ req,
      ParseRequest (bytes "GET / HTTP/1.1\r" ++ 10 :: (lines [] ++
        (bytes "Host" ++ bytes ": " ++ bytes "example.org" ++ CLRF ++ bytes "Accept: */*"))) =
          .ok req ∧
      req.Headers = (headersOfLines ∅ []).insert (bytes "Host") (bytes "example.org") ∧
      req.Headers.lookup (bytes "Host") = some (bytes "example.org") ∧
      req.Body = [] :=
  ⟨by decide,
    ParseRequest_headers_at_end_of_input (bytes "GET / HTTP/1.1\r") (bytes "GET") (bytes "/")
      (bytes "HTTP/1.1") [] (bytes "Host") (bytes "example.org") (bytes "Accept: */*")
      (by decide) (by decide) (by decide) (by decide) (by decide) (by decide) (by decide)
      (by decide) (by decide)⟩

/-! ## The headers, line by line -/

theorem lfLinesAux_append (c : Bytes) : ∀ (acc rest : Bytes), (10 : UInt8) ∉ c →
    lfLinesAux (c ++ 10 :: rest) acc = (acc.reverse ++ c) :: lfLinesAux rest [] := by
  induction c with
  | nil => intro acc rest _; simp [lfLinesAux]
  | cons b bs ih =>
    intro acc rest h
    have hb : b ≠ 10 := fun e => h (by simp [e])
    have hbs : (10 : UInt8) ∉ bs := fun e => h (List.mem_cons_of_mem _ e)
    simp [lfLinesAux, hb, ih (b :: acc) rest hbs]

theorem lfLinesAux_of_not_mem (t : Bytes) : ∀ acc : Bytes, (10 : UInt8) ∉ t →
    lfLinesAux t acc = [] := by
  induction t with
  | nil => intro acc _; rfl
  | cons b bs ih =>
    intro acc h
    have hb : b ≠ 10 := fun e => h (by simp [e])
    have hbs : (10 : UInt8) ∉ bs := fun e => h (List.mem_cons_of_mem _ e)
    simp [lfLinesAux, hb, ih (b :: acc) hbs]

theorem lfLines_append (c rest : Bytes) (h : (10 : UInt8) ∉ c) :
    lfLines (c ++ 10 :: rest) = c :: lfLines rest := by
  simp [lfLines, lfLinesAux_append c [] rest h]

/-- The lines of a buffer built from lines are those lines. -/
theorem lfLines_lines (hs : List Bytes) (tail : Bytes) (hh : ∀ c ∈ hs, (10 : UInt8) ∉ c)
    (ht : (10 : UInt8) ∉ tail) : lfLines (lines hs ++ tail) = hs := by
  induction hs with
  | nil => simpa [lines, lfLines] using lfLinesAux_of_not_mem tail [] ht
  | cons c cs ih =>
    have e : lines (c :: cs) ++ tail = c ++ 10 :: (lines cs ++ tail) := by simp [lines]
    rw [e, lfLines_append c _ (hh c (by simp)), ih fun x hx => hh x (List.mem_cons_of_mem _ hx)]

theorem headersOfLines_cons (h : Headers) (c : Bytes) (cs : List Bytes) :
    headersOfLines h (c :: cs) = headersOfLines (setHeader h (TrimSpace (c ++ [10]))) cs := rfl

/-- The header loop collects the lines up to the first blank one. -/
theorem parseHeaders_takeWhile (hs : List Bytes) (tail : Bytes) (ht : (10 : UInt8) ∉ tail) :
    ∀ (fuel : Nat) (h : Headers), hs.length < fuel → (∀ c ∈ hs, (10 : UInt8) ∉ c) →
    (parseHeaders fuel (lines hs ++ tail) h).1 =
      headersOfLines h (hs.takeWhile fun c => !isBlank c) := by
  induction hs with
  | nil =>
    intro fuel h hf _
    obtain ⟨f, rfl⟩ : ∃ f, fuel = f + 1 := ⟨fuel - 1, by simp at hf; omega⟩
    simp [lines, parseHeaders_eof f tail h ht, headersOfLines]
  | cons c cs ih =>
    intro fuel h hf hh
    obtain ⟨f, rfl⟩ : ∃ f, fuel = f + 1 := ⟨fuel - 1, by simp at hf; omega⟩
    have hc : (10 : UInt8) ∉ c := hh c (by simp)
    have e : lines (c :: cs) ++ tail = c ++ 10 :: (lines cs ++ tail) := by simp [lines]
    rw [e]
    by_cases hb : TrimSpace (c ++ [10]) = []
    · rw [parseHeaders_blank f c _ h hc hb]
      simp [isBlank, hb, headersOfLines]
    · rw [parseHeaders_line f c _ h hc hb,
        ih f _ (by simp at hf; omega) fun x hx => hh x (List.mem_cons_of_mem _ hx)]
      simp [isBlank, hb, headersOfLines_cons]

/-- The headers the loop of `ParseRequest` returns on a reader are those of
the lines of the reader up to the first blank one. -/
theorem parseHeaders_eq_headersOfLines (r : Bytes) (h : Headers) :
    (parseHeaders (r.length + 1) r h).1 =
      headersOfLines h ((lfLines r).takeWhile fun c => !isBlank c) := by
  obtain ⟨hs, tail, he, hh, ht⟩ := exists_lines r
  have hlen : hs.length < r.length + 1 := by
    have := length_le_lines hs
    rw [he, List.length_append]; omega
  rw [he, lfLines_lines hs tail hh ht, ← he]
  conv_lhs => rw [he]
  rw [← he]
  have := parseHeaders_takeWhile hs tail ht (r.length + 1) h hlen hh
  rw [← he] at this
  exact this

theorem takeWhile_colon_not_mem (l : Bytes) :
    (58 : UInt8) ∉ l.takeWhile fun b => b != 58 := by
  intro h
  have := List.mem_takeWhile_imp h
  simp at this

theorem split_at_first_colon (l : Bytes) (h : (58 : UInt8) ∈ l) :
    l = (l.takeWhile fun b => b != 58) ++ 58 :: (l.dropWhile fun b => b != 58).drop 1 := by
  induction l with
  | nil => simp at h
  | cons b bs ih =>
    by_cases hb : b = 58
    · subst hb; simp
    · have hbs : (58 : UInt8) ∈ bs := by
        rcases List.mem_cons.mp h with e | e
        · exact absurd e.symm hb
        · exact e
      have hne : (b != 58) = true := by simpa using hb
      simp only [List.takeWhile_cons, List.dropWhile_cons, hne, if_true, List.cons_append]
      rw [← ih hbs]

/-- What `setHeader` does, in the words of `splitFirstColon`. -/
theorem setHeader_eq (h : Headers) (l : Bytes) :
    setHeader h l =
      match splitFirstColon l with
      | some kv => h.insert (TrimSpace kv.1) (TrimSpace kv.2)
      | none => h := by
  by_cases hc : (58 : UInt8) ∈ l
  · have e := split_at_first_colon l hc
    have hs : splitFirstColon l = some (l.takeWhile fun b => b != 58,
        (l.dropWhile fun b => b != 58).drop 1) := by
      simp [splitFirstColon, hc]
    rw [hs]
    conv_lhs => rw [e]
    exact setHeader_of_colon h _ _ (takeWhile_colon_not_mem l)
  · have hs : splitFirstColon l = none := by simp [splitFirstColon, hc]
    rw [hs]
    exact setHeader_of_no_colon h l hc

theorem lookup_setHeader (h : Headers) (c name : Bytes) :
    (setHeader h (TrimSpace (c ++ [10]))).lookup name =
      match lineEntry c with
      | some kv => if kv.1 = name then some kv.2 else h.lookup name
      | none => h.lookup name := by
  rw [setHeader_eq]
  unfold lineEntry
  cases hs : splitFirstColon (TrimSpace (c ++ [10])) with
  | none => rfl
  | some kv =>
    simp only [Option.map_some']
    by_cases hk : TrimSpace kv.1 = name
    · subst hk
      simp
    · simp only [hk, if_false]
      exact AList.lookup_insert_ne (Ne.symm hk)

theorem lastValue_nil (name : Bytes) : lastValue [] name = none := rfl

theorem lastValue_cons (c : Bytes) (cs : List Bytes) (name : Bytes) :
    lastValue (c :: cs) name =
      (lastValue cs name).orElse fun _ =>
        match lineEntry c with
        | some kv => if kv.1 = name then some kv.2 else none
        | none => none := by
  unfold lastValue
  cases hc : lineEntry c with
  | none => 
    simp only [List.filterMap_cons, hc]
    cases (List.find? (fun kv => decide (kv.1 = name)) (List.filterMap lineEntry cs).reverse) <;> rfl
  | some kv =>
    simp only [List.filterMap_cons, hc, List.reverse_cons, List.find?_append]
    cases hf : List.find? (fun kv => decide (kv.1 = name)) (List.filterMap lineEntry cs).reverse with
    | some x => rfl
    | none =>
      by_cases hk : kv.1 = name <;> simp [hk]

/-- The headers collected from lines map a name to the value of the last
line that carries it, and otherwise to what they held before. -/
theorem lookup_headersOfLines (hs : List Bytes) (name : Bytes) : ∀ h : Headers,
    (headersOfLines h hs).lookup name = (lastValue hs name).orElse fun _ => h.lookup name := by
  induction hs with
  | nil => intro h; simp [headersOfLines, lastValue_nil]
  | cons c cs ih =>
    intro h
    rw [headersOfLines_cons, ih, lastValue_cons, lookup_setHeader]
    cases lastValue cs name with
    | some v => rfl
    | none =>
      cases lineEntry c with
      | none => rfl
      | some kv =>
        by_cases hk : kv.1 = name <;> simp [hk]

theorem ParseRequest_of_no_line_feed (rawRequest : Bytes) (h : (10 : UInt8) ∉ rawRequest) :
    ParseRequest rawRequest = .error .readRequestLine := by
  simp [ParseRequest, ReadString_of_not_mem 10 rawRequest h]

theorem exists_first_line (r : Bytes) (h : (10 : UInt8) ∈ r) :
    ∃ l rest : Bytes, r = l ++ 10 :: rest ∧ (10 : UInt8) ∉ l := by
  obtain ⟨hs, tail, he, hh, ht⟩ := exists_lines r
  cases hs with
  | nil =>
    rw [he] at h
    simp [lines] at h
    exact absurd h ht
  | cons c cs =>
    exact ⟨c, lines cs ++ tail, by rw [he]; simp [lines], hh c (by simp)⟩

/-- What a successful `ParseRequest` has done: the buffer starts with a
request line of three tokens, and the headers and body are what the header
loop gives on the bytes after that line. -/
theorem ParseRequest_ok_inv (rawRequest : Bytes) (req : Request)
    (h : ParseRequest rawRequest = .ok req) :
    ∃ l rest : Bytes, rawRequest = l ++ 10 :: rest ∧ (10 : UInt8) ∉ l ∧
      Split (TrimSpace (l ++ [10])) (bytes " ") = [req.Method, req.Target, req.HttpVersion] ∧
      req.Headers = (parseHeaders (rest.length + 1) rest ∅).1 ∧
      req.Body = (parseHeaders (rest.length + 1) rest ∅).2 := by
  by_cases hlf : (10 : UInt8) ∈ rawRequest
  · obtain ⟨l, rest, he, hl⟩ := exists_first_line rawRequest hlf
    refine ⟨l, rest, he, hl, ?_⟩
    subst he
    rcases hs : Split (TrimSpace (l ++ [10])) (bytes " ") with
      _ | ⟨a, _ | ⟨b, _ | ⟨c, _ | ⟨d, t⟩⟩⟩⟩
    · simp [ParseRequest, ReadString_append 10 l rest hl, hs] at h
    · simp [ParseRequest, ReadString_append 10 l rest hl, hs] at h
    · simp [ParseRequest, ReadString_append 10 l rest hl, hs] at h
    · rw [ParseRequest_of_tokens l rest a b c hl hs] at h
      cases h
      exact ⟨rfl, rfl, rfl⟩
    · simp [ParseRequest, ReadString_append 10 l rest hl, hs] at h
  · rw [ParseRequest_of_no_line_feed rawRequest hlf] at h
    cases h

/-- C17: for every input buffer that `ParseRequest` accepts, the returned
headers are determined by the lines that end in a line feed between the
request line and the first blank line: each such line that holds a colon is
split at its first colon only, name and value are stripped, and a name maps
to the value of the last line that carries it; a name no line carries is
absent. -/
theorem ParseRequest_headers_lookup (rawRequest : Bytes) (req : Request)
    (h : ParseRequest rawRequest = .ok req) (name : Bytes) :
    req.Headers.lookup name = lastValue (headerSection rawRequest) name := by
  obtain ⟨l, rest, he, hl, -, hh, -⟩ := ParseRequest_ok_inv rawRequest req h
  have hsec : headerSection rawRequest = (lfLines rest).takeWhile fun c => !isBlank c := by
    rw [he]
    simp [headerSection, lfLines_append l rest hl]
  rw [hh, hsec, parseHeaders_eq_headersOfLines, lookup_headersOfLines]
  cases lastValue (List.takeWhile (fun c => !isBlank c) (lfLines rest)) name <;> rfl

theorem ParseRequest_headers_lookup_witness :
    ParseRequest headersBuffer = .ok headersRequest ∧
    headerSection headersBuffer =
      [bytes "Host: a:1\r", bytes "X-Id : 7\r", bytes "bad line\r", bytes "Host:  b:2 \r"] ∧
    lastValue (headerSection headersBuffer) (bytes "Host") = some (bytes "b:2") ∧
    lastValue (headerSection headersBuffer) (bytes "bad line") = none ∧
    headersRequest.Headers.lookup (bytes "Host") =
      lastValue (headerSection headersBuffer) (bytes "Host") :=
  ⟨rfl, by decide, by decide, by decide,
    ParseRequest_headers_lookup headersBuffer headersRequest rfl (bytes "Host")⟩

/-! ## No token of the request line holds a line feed -/

theorem lastRuneStart_le (s : Bytes) (lim : Nat) : ∀ (n start : Nat),
    lastRuneStart s lim n start ≤ start := by
  intro n
  induction n with
  | zero => intro start; simp [lastRuneStart]
  | succ k ih =>
    intro start
    simp only [lastRuneStart]
    split_ifs
    · omega
    · omega
    · omega
    · have := ih (start - 1); omega

theorem DecodeRuneInString_width_pos (s : Bytes) (h : s ≠ []) :
    1 ≤ (DecodeRuneInString s).2 := by
  cases s with
  | nil => exact absurd rfl h
  | cons b0 t =>
    unfold DecodeRuneInString
    simp only
    split_ifs <;> first | exact Nat.le_refl 1 | (split <;> (try split_ifs) <;> simp)

theorem DecodeLastRuneInString_width_pos (s : Bytes) (h : s ≠ []) :
    1 ≤ (DecodeLastRuneInString s).2 := by
  have hlen : s.length ≠ 0 := fun e => h (List.length_eq_zero.mp e)
  unfold DecodeLastRuneInString
  simp only [hlen, if_false]
  split_ifs with h1 h2
  · exact Nat.le_refl 1
  · exact Nat.le_refl 1
  · apply DecodeRuneInString_width_pos
    intro e
    have hle := lastRuneStart_le s (s.length - 4) 4 (s.length - 1)
    have := List.drop_eq_nil_iff.mp e
    omega

theorem lastIndexFunc_lt (s : Bytes) : ∀ (fuel i : Nat), i ≤ s.length →
    lastIndexFunc s fuel i < (i : Int) := by
  intro fuel
  induction fuel with
  | zero => intro i _; simp only [lastIndexFunc]; omega
  | succ k ih =>
    intro i hi
    simp only [lastIndexFunc]
    split_ifs with h0 hsp
    · omega
    · have hne : s.take i ≠ [] := by
        intro e
        have := List.take_eq_nil_iff.mp e
        rcases this with h | h
        · exact h0 h
        · subst h; simp at hi; exact h0 hi
      have := DecodeLastRuneInString_width_pos _ hne
      omega
    · have := ih (i - (DecodeLastRuneInString (s.take i)).2) (by omega)
      omega

theorem ne_lf_of_ge (b : UInt8) (h : 0x80 ≤ b.toNat) : b ≠ 10 := by
  rintro rfl
  revert h
  decide

/-- A rune wider than one byte continues with bytes from `0x80` on. -/
theorem decode_continuation (b0 : UInt8) (r : Bytes) :
    (DecodeRuneInString (b0 :: r)).2 = 1 ∨
      ∀ x ∈ r.take ((DecodeRuneInString (b0 :: r)).2 - 1), 0x80 ≤ x.toNat := by
  unfold DecodeRuneInString
  simp only
  repeat' split
  all_goals first
    | exact Or.inl rfl
    | (right
       simp only [Nat.add_one_sub_one, List.take_succ_cons, List.take_zero, List.mem_cons,
         List.mem_singleton, List.not_mem_nil, or_false, forall_eq_or_imp, forall_eq,
         Nat.reduceSubDiff, Nat.reduceSub]
       omega)

/-- The bytes of the first rune of a text hold no line feed unless the text
starts with one. -/
theorem take_decode_no_lf (t : Bytes) (h : t.head? ≠ some 10) :
    (10 : UInt8) ∉ t.take (DecodeRuneInString t).2 := by
  cases t with
  | nil => simp
  | cons b0 r =>
    have hb0 : b0 ≠ 10 := by
      intro e; apply h; simp [e]
    have hw := DecodeRuneInString_width_pos (b0 :: r) (by simp)
    obtain ⟨w, hw1⟩ : ∃ w, (DecodeRuneInString (b0 :: r)).2 = w + 1 :=
      ⟨(DecodeRuneInString (b0 :: r)).2 - 1, by omega⟩
    rw [hw1, List.take_succ_cons]
    intro hm
    rcases List.mem_cons.mp hm with e | e
    · exact hb0 e.symm
    · rcases decode_continuation b0 r with h1 | h1
      · have : w = 0 := by omega
        subst this
        simp at e
      · rw [hw1] at h1
        exact ne_lf_of_ge 10 (h1 10 (by simpa using e)) rfl

theorem DecodeLastRuneInString_lf (m : Bytes) :
    DecodeLastRuneInString (m ++ [10]) = (10, 1) := by
  unfold DecodeLastRuneInString
  have h1 : (m ++ [10]).length ≠ 0 := by simp
  have h2 : (m ++ [10]).getD ((m ++ [10]).length - 1) 0 = 10 := by
    simp [List.getD_eq_getElem?_getD, List.getElem?_append_right]
  simp only [h1, if_false, h2]
  rfl

/-- The function `TrimRightFunc` removes the line feed that ends a text. -/
theorem TrimRightFunc_no_lf (m : Bytes) (hm : (10 : UInt8) ∉ m) :
    (10 : UInt8) ∉ TrimRightFunc (m ++ [10]) := by
  have hstep : lastIndexFunc (m ++ [10]) (m ++ [10]).length (m ++ [10]).length =
      lastIndexFunc (m ++ [10]) m.length m.length := by
    have hl : (m ++ [10]).length = m.length + 1 := by simp
    rw [hl]
    simp only [lastIndexFunc]
    have ht : List.take (m.length + 1) (m ++ [10]) = m ++ [10] := by
      rw [← hl]; exact List.take_length _
    rw [ht, DecodeLastRuneInString_lf]
    simp [IsSpace]
  have hlt := lastIndexFunc_lt (m ++ [10]) m.length m.length (by simp)
  unfold TrimRightFunc
  simp only [hstep]
  generalize lastIndexFunc (m ++ [10]) m.length m.length = j at hlt
  have htake : ∀ k, k ≤ m.length → (10 : UInt8) ∉ (m ++ [10]).take k := by
    intro k hk hmem
    rw [List.take_append_of_le_length hk] at hmem
    exact hm (List.mem_of_mem_take hmem)
  split_ifs with hc
  · obtain ⟨h0, hself⟩ := hc
    have hj : j.toNat < m.length := by omega
    rw [List.take_add]
    intro hmem
    rcases List.mem_append.mp hmem with h | h
    · exact htake _ (by omega) h
    · refine take_decode_no_lf _ ?_ h
      intro hhead
      have hd : (m ++ [10]).getD j.toNat 0 = 10 := by
        rw [List.head?_drop] at hhead
        simp [List.getD_eq_getElem?_getD, hhead]
      rw [hd] at hself
      revert hself
      decide
  · exact htake _ (by omega)

theorem trimLeftSpaceAux_suffix (s : Bytes) : ∀ skip : Nat, trimLeftSpaceAux skip s <:+ s := by
  induction s with
  | nil => intro skip; cases skip <;> simp [trimLeftSpaceAux]
  | cons c cs ih =>
    intro skip
    cases skip with
    | zero =>
      simp only [trimLeftSpaceAux]
      split_ifs
      · exact (ih _).trans (List.suffix_cons _ _)
      · exact List.suffix_refl _
    | succ k =>
      simp only [trimLeftSpaceAux]
      exact (ih _).trans (List.suffix_cons _ _)

theorem TrimFunc_no_lf (m : Bytes) (hm : (10 : UInt8) ∉ m) :
    (10 : UInt8) ∉ TrimFunc (m ++ [10]) := by
  unfold TrimFunc TrimLeftFunc
  obtain ⟨p, hp⟩ := trimLeftSpaceAux_suffix (m ++ [10]) 0
  generalize trimLeftSpaceAux 0 (m ++ [10]) = t at hp
  rcases List.eq_nil_or_concat t with rfl | ⟨t1, b, rfl⟩
  · simp [TrimRightFunc, lastIndexFunc]
  · rw [List.concat_eq_append, ← List.append_assoc] at hp
    have hb := List.append_inj' hp rfl
    have hb2 : b = 10 := by simpa using hb.2
    subst hb2
    have ht1 : (10 : UInt8) ∉ t1 := by
      intro h
      apply hm
      rw [← hb.1]
      exact List.mem_append_right _ h
    rw [List.concat_eq_append]
    exact TrimRightFunc_no_lf t1 ht1

theorem trimSpaceRight_lf (r : Bytes) : trimSpaceRight (10 :: r) = trimSpaceRight r := by
  have h := trimSpaceRight_spaces_append [10] r (by intro w hw; simp at hw; subst hw; decide)
  simpa using h

/-- The function `TrimSpace` removes the line feed that ends a line. -/
theorem TrimSpace_no_lf (l : Bytes) (hl : (10 : UInt8) ∉ l) :
    (10 : UInt8) ∉ TrimSpace (l ++ [10]) := by
  induction l with
  | nil => decide
  | cons c cs ih =>
    have hcs : (10 : UInt8) ∉ cs := fun e => hl (List.mem_cons_of_mem _ e)
    rw [List.cons_append]
    simp only [TrimSpace]
    split_ifs
    · rw [← List.cons_append]
      exact TrimFunc_no_lf _ hl
    · exact ih hcs
    · rw [← List.cons_append, List.reverse_append]
      show (10 : UInt8) ∉ trimSpaceRight (10 :: (c :: cs).reverse)
      rw [trimSpaceRight_lf]
      intro h
      exact hl (List.mem_reverse.mp (trimSpaceRight_subset _ _ h))

theorem genSplit_subset (sep : Bytes) (s : Bytes) : ∀ (k skip : Nat) (acc : Bytes),
    ∀ t ∈ genSplit sep k skip s acc, ∀ x ∈ t, x ∈ s ∨ x ∈ acc := by
  induction s with
  | nil =>
    intro k skip acc t ht x hx
    have : genSplit sep k skip [] acc = [acc.reverse] := by
      cases k <;> cases skip <;> rfl
    rw [this, List.mem_singleton] at ht
    subst ht
    exact Or.inr (List.mem_reverse.mp hx)
  | cons c cs ih =>
    intro k skip acc t ht x hx
    cases skip with
    | succ sk =>
      have : genSplit sep k (sk + 1) (c :: cs) acc = genSplit sep k sk cs acc := by
        cases k <;> rfl
      rw [this] at ht
      rcases ih k sk acc t ht x hx with h | h
      · exact Or.inl (List.mem_cons_of_mem _ h)
      · exact Or.inr h
    | zero =>
      cases k with
      | zero =>
        simp only [genSplit, List.mem_singleton] at ht
        subst ht
        rcases List.mem_append.mp hx with h | h
        · exact Or.inr (List.mem_reverse.mp h)
        · exact Or.inl h
      | succ k =>
        simp only [genSplit] at ht
        split_ifs at ht
        · rcases List.mem_cons.mp ht with rfl | ht
          · exact Or.inr (List.mem_reverse.mp hx)
          · rcases ih _ _ _ t ht x hx with h | h
            · exact Or.inl (List.mem_cons_of_mem _ h)
            · simp at h
        · rcases ih _ _ _ t ht x hx with h | h
          · exact Or.inl (List.mem_cons_of_mem _ h)
          · rcases List.mem_cons.mp h with rfl | h
            · exact Or.inl (List.mem_cons_self _ _)
            · exact Or.inr h

theorem Split_subset (s sep : Bytes) (t : Bytes) (ht : t ∈ Split s sep) (x : UInt8)
    (hx : x ∈ t) : x ∈ s := by
  rcases genSplit_subset sep s _ _ _ t ht x hx with h | h
  · exact h
  · simp at h

/-- No token of the request `ParseRequest` returns holds a line feed: the
routes see targets without line feed only. -/
theorem ParseRequest_tokens_no_lf (rawRequest : Bytes) (req : Request)
    (h : ParseRequest rawRequest = .ok req) :
    (10 : UInt8) ∉ req.Method ∧ (10 : UInt8) ∉ req.Target ∧ (10 : UInt8) ∉ req.HttpVersion := by
  obtain ⟨l, rest, -, hl, htok, -, -⟩ := ParseRequest_ok_inv rawRequest req h
  have hno := TrimSpace_no_lf l hl
  have key : ∀ t ∈ Split (TrimSpace (l ++ [10])) (bytes " "), (10 : UInt8) ∉ t :=
    fun t ht hx => hno (Split_subset _ _ t ht 10 hx)
  rw [htok] at key
  exact ⟨key _ (by simp), key _ (by simp), key _ (by simp)⟩

/-! ## Writing a file and reading it back -/

/-- C12: over the filesystem that is a mapping from path to bytes, on which a
write succeeds: for every file name `n` and body `b`, the route selection on
a POST request to "/files/" followed by `n` with body `b` gives
"HTTP/1.1 201 Created" and an empty body, and on the filesystem it leaves, the
route selection on a GET request to the same target gives "HTTP/1.1 200 OK"
with body `b`. The requests are any that `ParseRequest` returns; their targets
hold no line feed (`ParseRequest_tokens_no_lf`). -/
theorem post_then_get_roundtrip (fs : Bytes → Option Bytes) (dir n b : Bytes)
    (raw₁ raw₂ : Bytes) (post get : Request)
    (hpost : ParseRequest raw₁ = .ok post) (hget : ParseRequest raw₂ = .ok get)
    (hpm : post.Method = bytes "POST") (hpt : post.Target = bytes "/files/" ++ n)
    (hpb : post.Body = b)
    (hgm : get.Method = bytes "GET") (hgt : get.Target = bytes "/files/" ++ n) :
    (selectRoute mapFS fs dir post).1.Status = bytes "HTTP/1.1 201 Created" ∧
    (selectRoute mapFS fs dir post).1.Body = [] ∧
    (selectRoute mapFS (selectRoute mapFS fs dir post).2 dir get).1.Status =
      bytes "HTTP/1.1 200 OK" ∧
    (selectRoute mapFS (selectRoute mapFS fs dir post).2 dir get).1.Body = b := by
  have hn : (10 : UInt8) ∉ n := by
    have h := (ParseRequest_tokens_no_lf raw₁ post hpost).2.1
    rw [hpt] at h
    exact fun e => h (List.mem_append_right _ e)
  obtain ⟨pm, pt, pv, ph, pb⟩ := post
  obtain ⟨gm, gt, gv, gh, gb⟩ := get
  simp only at hpm hpt hpb hgm hgt
  subst hpm hpt hpb hgm hgt
  exact selectRoute_post_get_of_no_lf fs dir n pb _ _ _ _ _ hn

theorem post_then_get_roundtrip_witness :
    ∃ post get : Request,
      ParseRequest (bytes "POST /files/new.txt HTTP/1.1\r\nContent-Length: 3\r\n\r\nabc") =
        .ok post ∧
      ParseRequest (bytes "GET /files/new.txt HTTP/1.1\r\n\r\n") = .ok get ∧
      (selectRoute mapFS emptyFiles (bytes "/srv/") post).1.Status =
        bytes "HTTP/1.1 201 Created" ∧
      (selectRoute mapFS emptyFiles (bytes "/srv/") post).1.Body = [] ∧
      (selectRoute mapFS (selectRoute mapFS emptyFiles (bytes "/srv/") post).2
        (bytes "/srv/") get).1.Status = bytes "HTTP/1.1 200 OK" ∧
      (selectRoute mapFS (selectRoute mapFS emptyFiles (bytes "/srv/") post).2
        (bytes "/srv/") get).1.Body = bytes "abc" :=
  ⟨{ Method := bytes "POST", Target := bytes "/files/new.txt", HttpVersion := bytes "HTTP/1.1",
     Headers := (∅ : Headers).insert (bytes "Content-Length") (bytes "3"), Body := bytes "abc" },
   { Method := bytes "GET", Target := bytes "/files/new.txt", HttpVersion := bytes "HTTP/1.1",
     Headers := ∅, Body := [] },
   rfl, rfl,
   post_then_get_roundtrip emptyFiles (bytes "/srv/") (bytes "new.txt") (bytes "abc")
     (bytes "POST /files/new.txt HTTP/1.1\r\nContent-Length: 3\r\n\r\nabc")
     (bytes "GET /files/new.txt HTTP/1.1\r\n\r\n") _ _ rfl rfl rfl (by decide) rfl rfl
     (by decide)⟩

end HttpServer
